import Mathlib

/-!
# sms-gateway: routing and message synthesis

A shallow embedding of the Go packages `config` and `handler` of the
sms-gateway repository, followed by theorems about the embedded functions.

Conventions of the embedding

* A Go `string` is a sequence of bytes: `GoString := List UInt8`.  `len(s)` is
  `s.length`, `s[:k]` is `s.take k` (with the bounds check made explicit),
  `a + b` is `a ++ b`.  String constants of the source are written `lit "..."`,
  the UTF-8 bytes of the constant; the empty string is `[]`.
* A Go `map[string]T` is `Option (List (GoString × T))`: `none` is the nil map,
  `some es` a map whose entries are `es`, listed in the order in which a
  `range` over the map visits them.  Go leaves that order unspecified, so it
  is an input of the model: a statement proved for every list holds for
  every order the runtime may choose.
* A Go slice is a `List`; the nil slice is `[]`.
* A run-time panic (index or slice bound out of range) is `none` in a
  function returning `Option`.
* Writes to the log file and to standard output are not modelled.  Calls to
  the `forwarder` package and the HTTP response are recorded in the value a
  handler returns.
-/

/-! ## Go strings and the `strings` package -/

/-- A Go string: an immutable sequence of bytes. -/
abbrev GoString := List UInt8

/-- The bytes (UTF-8) of a string constant of the source. -/
def lit (s : String) : GoString := s.toUTF8.data.toList

/-- Go `int` arithmetic: the 64-bit two's complement value of `x`. -/
def wrapInt64 (x : Int) : Int := (x + 2 ^ 63) % 2 ^ 64 - 2 ^ 63

/-- The slice expression `s[:hi]`; `none` is the run-time panic
"slice bounds out of range", raised when `hi < 0` or `hi > len(s)`. -/
def sliceTo (s : GoString) (hi : Int) : Option GoString :=
  if 0 ≤ hi ∧ hi ≤ (s.length : Int) then some (s.take hi.toNat) else none

namespace strings

/-- Go `strings.Join(elems, sep)`. -/
def Join : List GoString → GoString → GoString
  | [], _ => []
  | [a], _ => a
  | a :: b :: rest, sep => a ++ sep ++ Join (b :: rest) sep

/-- Go `strings.HasPrefix(s, pfx)`. -/
def HasPrefix (s pfx : GoString) : Bool := pfx.isPrefixOf s

/-- Go `strings.Contains(s, substr)`: `substr` occurs in `s` as a contiguous
block of bytes (the empty string occurs in every string). -/
def Contains : GoString → GoString → Bool
  | [], substr => substr.isEmpty
  | c :: cs, substr => substr.isPrefixOf (c :: cs) || Contains cs substr

/-- Go `strings.Split(s, sep)` for a separator of one byte: the fields between
the occurrences of `sep`; a string without `sep` gives one field. -/
def SplitByte (sep : UInt8) : GoString → List GoString
  | [] => [[]]
  | c :: cs =>
    if c = sep then [] :: SplitByte sep cs
    else
      match SplitByte sep cs with
      | [] => [[c]]
      | f :: fs => (c :: f) :: fs

/-- The UTF-8 encodings of the code points for which `unicode.IsSpace` holds:
tab, LF, VT, FF, CR, space, U+0085, U+00A0, U+1680, U+2000 to U+200A, U+2028,
U+2029, U+202F, U+205F and U+3000. -/
def spaceEncodings : List GoString :=
  [[0x09], [0x0A], [0x0B], [0x0C], [0x0D], [0x20],
   [0xC2, 0x85], [0xC2, 0xA0], [0xE1, 0x9A, 0x80],
   [0xE2, 0x80, 0x80], [0xE2, 0x80, 0x81], [0xE2, 0x80, 0x82], [0xE2, 0x80, 0x83],
   [0xE2, 0x80, 0x84], [0xE2, 0x80, 0x85], [0xE2, 0x80, 0x86], [0xE2, 0x80, 0x87],
   [0xE2, 0x80, 0x88], [0xE2, 0x80, 0x89], [0xE2, 0x80, 0x8A],
   [0xE2, 0x80, 0xA8], [0xE2, 0x80, 0xA9], [0xE2, 0x80, 0xAF],
   [0xE2, 0x81, 0x9F], [0xE3, 0x80, 0x80]]

/-- Removes one leading white-space code point, when `s` starts with one. -/
def dropSpace (encs : List GoString) (s : GoString) : Option GoString :=
  encs.findSome? (fun e => if e.isPrefixOf s then some (s.drop e.length) else none)

/-- Removes leading white-space code points, at most `fuel` of them. -/
def trimLeftAux (encs : List GoString) : Nat → GoString → GoString
  | 0, s => s
  | fuel + 1, s =>
    match dropSpace encs s with
    | some rest => trimLeftAux encs fuel rest
    | none => s

/-- Go `strings.TrimLeftFunc(s, unicode.IsSpace)`. -/
def TrimLeftSpace (s : GoString) : GoString :=
  trimLeftAux spaceEncodings s.length s

/-- Go `strings.TrimRightFunc(s, unicode.IsSpace)`: a string ends with the
encoding of a code point exactly when its reverse starts with the reversed
encoding. -/
def TrimRightSpace (s : GoString) : GoString :=
  (trimLeftAux (spaceEncodings.map List.reverse) s.length s.reverse).reverse

/-- Go `strings.TrimSpace(s)`: `s` without its leading and trailing white space,
as defined by Unicode.  Bytes that are not the UTF-8 encoding of a white-space
code point (invalid UTF-8 included) are kept. -/
def TrimSpace (s : GoString) : GoString := TrimRightSpace (TrimLeftSpace s)

/-- A stand-in for `strings.ToLower` that maps the bytes `A` to `Z` to `a` to
`z` and keeps every other byte; it agrees with `strings.ToLower` on strings
of ASCII bytes.  The functions below take the lower-casing function as an
argument; this one instantiates it in concrete evaluations. -/
def asciiToLower (s : GoString) : GoString :=
  s.map (fun b => if 65 ≤ b ∧ b ≤ 90 then b + 32 else b)

end strings

/-! ## Go maps -/

/-- A Go `map[string]string`. -/
abbrev StrMap := Option (List (GoString × GoString))

/-- The comma-ok index expression `v, ok := m[k]`: `some v` when `ok`. -/
def mapLookup {β : Type} (m : Option (List (GoString × β))) (k : GoString) : Option β :=
  match m with
  | none => none
  | some es => es.lookup k

/-- The index expression `m[k]` of a `map[string]string`: the zero value `""`
when the key is absent. -/
def mapIndex (m : StrMap) (k : GoString) : GoString := (mapLookup m k).getD []

/-- A value of the empty interface type as `encoding/json` decodes it.  Arrays and
objects carry no payload here: the handlers only test whether a value is a
string. -/
inductive Iface where
  | null
  | bool (b : Bool)
  | number (n : Int)
  | str (s : GoString)
  | array
  | object
  deriving DecidableEq, Repr

/-! ## Package `config` -/

namespace config

/-- The Go struct `SMSSchedule`. -/
structure SMSSchedule where
  Enabled : Bool
  StartTime : GoString
  EndTime : GoString
  Timezone : GoString
  deriving DecidableEq, Repr

/-- The Go struct `Receiver`; `Schedule` is a pointer, `none` when nil. -/
structure Receiver where
  Name : GoString
  Mobiles : List GoString
  Mobile : GoString
  Schedule : Option SMSSchedule
  Match : StrMap
  deriving DecidableEq, Repr

/-- The Go struct `DefaultReceiver`. -/
structure DefaultReceiver where
  Mobiles : List GoString
  Mobile : GoString
  Schedule : Option SMSSchedule
  deriving DecidableEq, Repr

/-- The Go struct `ArgocdConfig`. -/
structure ArgocdConfig where
  Enabled : Bool
  AppMapping : StrMap
  AppPrefixMapping : StrMap
  ProjectMapping : StrMap
  NamespaceMapping : StrMap
  DefaultReceiver : GoString
  deriving DecidableEq, Repr

/-- The Go struct `Config`; `ArgoCD` is a pointer, `none` when nil.  The field
`Receiver` is the alias of `Receivers` that `Normalize` sets. -/
structure Config where
  Receivers : List config.Receiver
  Receiver : List config.Receiver
  DefaultReceiver : config.DefaultReceiver
  ArgoCD : Option ArgocdConfig
  deriving DecidableEq, Repr

/-- The function `parseMobiles`: the comma-separated fields of `mobileString`, each with
its surrounding white space removed, without the fields that are then empty. -/
def parseMobiles (mobileString : GoString) : List GoString :=
  let parts := strings.SplitByte 44 mobileString
  parts.foldl
    (fun mobiles p =>
      let trimmed := strings.TrimSpace p
      if trimmed ≠ [] then mobiles ++ [trimmed] else mobiles)
    []

/-- The function `(*Config).Normalize`: fills `Mobiles` of every receiver and of the
default receiver from the raw `Mobile` strings, then sets the alias
`Receiver` to `Receivers`. -/
def Normalize (c : Config) : Config :=
  let receivers := c.Receivers.map (fun r => { r with Mobiles := parseMobiles r.Mobile })
  { c with
    Receivers := receivers
    DefaultReceiver := { c.DefaultReceiver with Mobiles := parseMobiles c.DefaultReceiver.Mobile }
    Receiver := receivers }

end config

/-! ## Package `handler`: deployment (ArgoCD) notifications -/

namespace handler

/-- The Go struct `ArgocdMetadata`. -/
structure ArgocdMetadata where
  Name : GoString
  Namespace : GoString
  deriving DecidableEq, Repr

/-- The Go struct `ArgocdSource`. -/
structure ArgocdSource where
  RepoURL : GoString
  Path : GoString
  TargetRevision : GoString
  deriving DecidableEq, Repr

/-- The Go struct `ArgocdDest`. -/
structure ArgocdDest where
  Server : GoString
  Namespace : GoString
  deriving DecidableEq, Repr

/-- The Go struct `ArgocdSpec`. -/
structure ArgocdSpec where
  Project : GoString
  Source : ArgocdSource
  Destination : ArgocdDest
  deriving DecidableEq, Repr

/-- The Go struct `ArgocdSync`. -/
structure ArgocdSync where
  Status : GoString
  Revision : GoString
  deriving DecidableEq, Repr

/-- The Go struct `ArgocdHealth`. -/
structure ArgocdHealth where
  Status : GoString
  Message : GoString
  deriving DecidableEq, Repr

/-- The Go struct `ArgocdOperation`. -/
structure ArgocdOperation where
  Phase : GoString
  Message : GoString
  deriving DecidableEq, Repr

/-- The Go struct `ArgocdStatus`. -/
structure ArgocdStatus where
  Sync : ArgocdSync
  Health : ArgocdHealth
  OperationState : ArgocdOperation
  deriving DecidableEq, Repr

/-- The Go struct `ArgocdApp`. -/
structure ArgocdApp where
  Metadata : ArgocdMetadata
  Spec : ArgocdSpec
  Status : ArgocdStatus
  deriving DecidableEq, Repr

/-- The Go struct `ArgocdNotification`; `Context` is a
map from strings to values of the empty interface type. -/
structure ArgocdNotification where
  Message : GoString
  App : ArgocdApp
  Context : Option (List (GoString × Iface))
  ServiceType : GoString
  deriving DecidableEq, Repr

/-- The function `truncateString(s, maxLen)`.  `maxLen` is a Go `int`; the difference
`maxLen-3` is computed in 64-bit arithmetic and the slice `s[:maxLen-3]`
panics (`none`) when that bound is negative or exceeds `len(s)`. -/
def truncateString (s : GoString) (maxLen : Int) : Option GoString :=
  if (s.length : Int) ≤ maxLen then some s
  else (sliceTo s (wrapInt64 (maxLen - 3))).map (fun head => head ++ lit "...")

/-- The function `buildArgocdMessage`: the text of the SMS for a deployment notification,
`""` when the notification is not worth an alert.  The result is an `Option`
because `truncateString` can panic. -/
def buildArgocdMessage (notif : ArgocdNotification) : Option GoString :=
  let app := notif.App
  let appName := app.Metadata.Name
  let ns := app.Spec.Destination.Namespace
  let project := app.Spec.Project
  let syncStatus := app.Status.Sync.Status
  let alertState : Bool × GoString :=
    if syncStatus = lit "OutOfSync" then (true, lit "OUT OF SYNC")
    else if syncStatus = lit "Unknown" then (true, lit "SYNC UNKNOWN")
    else (false, [])
  let shouldAlert := alertState.1
  let alertType := alertState.2
  if !shouldAlert then some []
  else do
    let parts : List GoString := []
    let parts := parts ++ [lit "[" ++ alertType ++ lit "]"]
    let parts := parts ++ [lit "App: " ++ appName]
    let parts := if project ≠ [] ∧ project ≠ lit "default"
      then parts ++ [lit "Project: " ++ project] else parts
    let parts := if ns ≠ [] then parts ++ [lit "NS: " ++ ns] else parts
    let parts := if syncStatus ≠ [] then parts ++ [lit "Sync: " ++ syncStatus] else parts
    let parts ←
      if app.Status.OperationState.Message ≠ [] then do
        let t ← truncateString app.Status.OperationState.Message 50
        pure (parts ++ [lit "Msg: " ++ t])
      else pure parts
    let parts ←
      if notif.Message ≠ [] ∧ notif.Message ≠ app.Status.OperationState.Message then do
        let t ← truncateString notif.Message 50
        pure (parts ++ [t])
      else pure parts
    pure (strings.Join parts (lit " | "))

/-- The loop `for _, r := range cfg.Receiver { if r.Name == name { return r } }`
that every strategy of `determineArgocdReceiver` runs: the first configured
receiver called `name`, `none` when the loop ends without returning. -/
def firstNamed (receivers : List config.Receiver) (name : GoString) : Option config.Receiver :=
  receivers.find? (fun r => r.Name == name)

/-- The condition `contextReceiver, ok := notif.Context["receiver"].(string);
ok && contextReceiver != ""`: the string it binds, when it holds. -/
def contextReceiver (notif : ArgocdNotification) : Option GoString :=
  match mapLookup notif.Context (lit "receiver") with
  | some (Iface.str s) => if s ≠ [] then some s else none
  | _ => none

/-- Strategy 1 (lines 161-168): the receiver named in the context. -/
def fromContext (notif : ArgocdNotification) (cfg : config.Config) : Option config.Receiver :=
  match contextReceiver notif with
  | some name => firstNamed cfg.Receiver name
  | none => none

/-- Strategy 2 (lines 170-179): the exact application-name mapping. -/
def fromAppMapping (notif : ArgocdNotification) (cfg : config.Config) : Option config.Receiver :=
  let appName := notif.App.Metadata.Name
  match cfg.ArgoCD with
  | none => none
  | some argo =>
    match argo.AppMapping with
    | none => none
    | some m =>
      match m.lookup appName with
      | some receiverName => firstNamed cfg.Receiver receiverName
      | none => none

/-- The double loop of strategies 3 and 5: the entries are visited in order;
at the first entry whose key matches and whose value names a configured
receiver the function returns that receiver. -/
def firstMatching (receivers : List config.Receiver) (entries : List (GoString × GoString))
    (isMatch : GoString → Bool) : Option config.Receiver :=
  entries.findSome? (fun e => if isMatch e.1 then firstNamed receivers e.2 else none)

/-- Strategy 3 (lines 181-192): the application-name prefixes. -/
def fromAppPrefixMapping (notif : ArgocdNotification) (cfg : config.Config) :
    Option config.Receiver :=
  let appName := notif.App.Metadata.Name
  match cfg.ArgoCD with
  | none => none
  | some argo =>
    match argo.AppPrefixMapping with
    | none => none
    | some m => firstMatching cfg.Receiver m (fun pfx => strings.HasPrefix appName pfx)

/-- Strategy 4 (lines 194-204): the project mapping, looked up at the
lower-cased project.  `toLower` is `strings.ToLower`. -/
def fromProjectMapping (toLower : GoString → GoString) (notif : ArgocdNotification)
    (cfg : config.Config) : Option config.Receiver :=
  match cfg.ArgoCD with
  | none => none
  | some argo =>
    match argo.ProjectMapping with
    | none => none
    | some m =>
      let project := notif.App.Spec.Project
      match m.lookup (toLower project) with
      | some receiverName => firstNamed cfg.Receiver receiverName
      | none => none

/-- Strategy 5 (lines 206-218): the namespace patterns. -/
def fromNamespaceMapping (notif : ArgocdNotification) (cfg : config.Config) :
    Option config.Receiver :=
  match cfg.ArgoCD with
  | none => none
  | some argo =>
    match argo.NamespaceMapping with
    | none => none
    | some m =>
      let ns := notif.App.Spec.Destination.Namespace
      firstMatching cfg.Receiver m (fun nsPattern => strings.Contains ns nsPattern)

/-- Lines 220-224: the name of the default receiver of deployment events. -/
def defaultReceiverName (cfg : config.Config) : GoString :=
  match cfg.ArgoCD with
  | some argo => if argo.DefaultReceiver ≠ [] then argo.DefaultReceiver else lit "alert-devops"
  | none => lit "alert-devops"

/-- Lines 232-236: the receiver built when no configured receiver is found. -/
def lastFallback (cfg : config.Config) : config.Receiver :=
  { Name := lit "default"
    Mobiles := []
    Mobile := cfg.DefaultReceiver.Mobile
    Schedule := none
    Match := none }

/-- The function `determineArgocdReceiver`: the strategies in the order of the source,
each returning from the function as soon as it finds a configured receiver. -/
def determineArgocdReceiver (toLower : GoString → GoString) (notif : ArgocdNotification)
    (cfg : config.Config) : config.Receiver :=
  match fromContext notif cfg with
  | some r => r
  | none =>
  match fromAppMapping notif cfg with
  | some r => r
  | none =>
  match fromAppPrefixMapping notif cfg with
  | some r => r
  | none =>
  match fromProjectMapping toLower notif cfg with
  | some r => r
  | none =>
  match fromNamespaceMapping notif cfg with
  | some r => r
  | none =>
  match firstNamed cfg.Receiver (defaultReceiverName cfg) with
  | some r => r
  | none => lastFallback cfg

/-- The response a handler writes: `w.WriteHeader(Status)` and
`w.Write(Body)`; `http.Error(w, msg, code)` writes `msg` and a line feed. -/
structure Response where
  Status : Nat
  Body : GoString
  deriving DecidableEq, Repr

/-- What `processArgocdNotification` does: the calls
`forwarder.SendSMS(mobile, message)` it makes, and its response. -/
structure ArgocdOutcome where
  smsCalls : List (GoString × GoString)
  response : Response
  deriving DecidableEq, Repr

/-- The function `processArgocdNotification`.  `sendFails mobile message` tells whether
`forwarder.SendSMS(mobile, message)`, a function of another package, returns
an error. -/
def processArgocdNotification (toLower : GoString → GoString)
    (sendFails : GoString → GoString → Bool) (notif : ArgocdNotification)
    (cfg : config.Config) : Option ArgocdOutcome := do
  let message ← buildArgocdMessage notif
  if message = [] then
    pure { smsCalls := [], response := { Status := 200, Body := lit "ArgoCD notification ignored" } }
  else
    let receiver := determineArgocdReceiver toLower notif cfg
    if sendFails receiver.Mobile message then
      pure { smsCalls := [(receiver.Mobile, message)]
             response := { Status := 500, Body := lit "error forwarding SMS" ++ [10] } }
    else
      pure { smsCalls := [(receiver.Mobile, message)]
             response := { Status := 200, Body := lit "ArgoCD notification processed ✅" } }

/-! ## Package `handler`: alerts -/

/-- Modelled from the spec: the struct of one entry of `AlertData.Alerts`,
declared in a file that is not among the sources.  The fields are those the
handlers read (`Status`, `Labels`, `Annotations`), with the types section 6 of
the specification gives them: a status and two maps from strings to
strings, `labels` and `annotations`. -/
structure Alert where
  Status : GoString
  Labels : StrMap
  Annotations : StrMap
  deriving DecidableEq, Repr

/-- Modelled from the spec: the struct `AlertData`, declared in a file that
is not among the sources: "JSON object with `receiver` (string) and `alerts`
(ordered list of ...)". -/
structure AlertData where
  Receiver : GoString
  Alerts : List Alert
  deriving DecidableEq, Repr

/-- Modelled from the spec: the helper `defaultIfEmpty`, defined in a file
that is not among the sources: "Missing fields default to literal
placeholders (`unknown-cluster`, `unknown-pod`, etc.)". -/
def defaultIfEmpty (value fallback : GoString) : GoString :=
  if value = [] then fallback else value

/-- Lines 16-36 and 58-93 of `processAlert`: the fields read from the first
alert and the message built from them, by the template that the declared
receiver `targetReceiver` selects. -/
def buildAlertMessage (targetReceiver : GoString) (alert : Alert) : GoString :=
  let alertgroup := defaultIfEmpty (mapIndex alert.Labels (lit "alertgroup")) (lit "unknown-alertgroup")
  let alertname := defaultIfEmpty (mapIndex alert.Labels (lit "alertname")) (lit "unknown-alertname")
  let status := alert.Status
  let cluster := defaultIfEmpty (mapIndex alert.Labels (lit "cluster")) (lit "unknown-cluster")
  let ns := defaultIfEmpty (mapIndex alert.Labels (lit "namespace")) (lit "unknown-namespace")
  let pod := defaultIfEmpty (mapIndex alert.Labels (lit "pod")) (lit "unknown-pod")
  let summary := mapIndex alert.Annotations (lit "summary")
  let consumergroup :=
    defaultIfEmpty (mapIndex alert.Labels (lit "consumergroup")) (lit "unknown-consumergroup")
  let job := defaultIfEmpty (mapIndex alert.Labels (lit "job")) (lit "unknown-job")
  let topic := defaultIfEmpty (mapIndex alert.Labels (lit "topic")) (lit "unknown-topic")
  let instanceName := defaultIfEmpty (mapIndex alert.Labels (lit "instance")) (lit "unknown-instance")
  let summary := if summary = [] then mapIndex alert.Labels (lit "alertname") else summary
  if targetReceiver = lit "alert-d1-lgc-devops" then
    if instanceName ≠ lit "unknown-instance" then
      lit "[" ++ status ++ lit "] AlertName: " ++ alertname ++ lit " | Instance: " ++ instanceName
        ++ lit " | Sum: " ++ summary
    else if topic ≠ lit "unknown-topic" ∨ consumergroup ≠ lit "unknown-consumergroup" then
      lit "[" ++ status ++ lit "] " ++ alertname ++ lit " | ConsumerGroup: " ++ consumergroup
        ++ lit " | Job: " ++ job ++ lit " | Topic: " ++ topic ++ lit " | Sum: " ++ summary
    else
      lit "[" ++ status ++ lit "] Legacy alert type but mising fields | AlertGroup: " ++ alertgroup
        ++ lit " | AlertName: " ++ alertname ++ lit " | Sum: " ++ summary
  else if targetReceiver = lit "alert-devops" then
    if cluster ≠ lit "unknown-cluster" ∨ ns ≠ lit "unknown-namespace" ∨ pod ≠ lit "unknown-pod" then
      lit "[" ++ status ++ lit "] " ++ cluster ++ lit "/" ++ ns ++ lit " | " ++ pod
        ++ lit " | " ++ summary
    else
      lit "[" ++ status ++ lit "] K8S alert tyep but missing fields | AlertGroup: " ++ alertgroup
        ++ lit " | AlertName: " ++ alertname ++ lit " | Sum: " ++ summary
  else
    lit "[" ++ status ++ lit "] AlertGroup: " ++ alertgroup ++ lit " | AlertName: " ++ alertname
      ++ lit " | Sum: " ++ summary

/-- What `processAlert` does: the calls
`forwarder.SendToMultipleMobiles(mobiles, message)` it makes, and its
response. -/
structure AlertOutcome where
  sendCalls : List (List GoString × GoString)
  response : Response
  deriving DecidableEq, Repr

/-- The rule check of line 46, without its negation. -/
def alertFires (status severity : GoString) : Bool :=
  status = lit "resolved" || (status = lit "firing" && severity = lit "critical")

/-- The function `processAlert`; `none` is the panic of `alertData.Alerts[0]` on an empty
list. -/
def processAlert (alertData : AlertData) (cfg : config.Config) : Option AlertOutcome :=
  match alertData.Alerts with
  | [] => none
  | alert :: _ =>
    let status := alert.Status
    let severity := mapIndex alert.Labels (lit "severity")
    if !(alertFires status severity) then
      some { sendCalls := []
             response := { Status := 200, Body := lit "⚠️ Alert ignored by default rules" } }
    else
      let targetReceiver := alertData.Receiver
      let message := buildAlertMessage targetReceiver alert
      let sendCalls :=
        match cfg.Receivers.find? (fun receiver => receiver.Name == targetReceiver) with
        | some receiver => [(receiver.Mobiles, message)]
        | none => [(cfg.DefaultReceiver.Mobiles, message)]
      some { sendCalls := sendCalls
             response := { Status := 200, Body := lit "Alert processed ✅" } }

/-! ## Reference definitions and concrete inputs -/

/-- The tag of an alert-worthy sync status, as the specification lists them:
`OutOfSync` gives `OUT OF SYNC`, `Unknown` gives `SYNC UNKNOWN`. -/
def specTag (syncStatus : GoString) : GoString :=
  if syncStatus = lit "OutOfSync" then lit "OUT OF SYNC" else lit "SYNC UNKNOWN"

/-- The segments of the deployment message in the words of the
specification: each entry is `some` segment when the segment is included.
`opText` and `msgText` stand for `truncateString(operation message, 50)` and
`truncateString(free-text message, 50)`. -/
def specSegments (notif : ArgocdNotification) (opText msgText : GoString) :
    List (Option GoString) :=
  let project := notif.App.Spec.Project
  let ns := notif.App.Spec.Destination.Namespace
  let status := notif.App.Status.Sync.Status
  let opMessage := notif.App.Status.OperationState.Message
  [ some (lit "[" ++ specTag status ++ lit "]"),
    some (lit "App: " ++ notif.App.Metadata.Name),
    if project ≠ [] ∧ project ≠ lit "default" then some (lit "Project: " ++ project) else none,
    if ns ≠ [] then some (lit "NS: " ++ ns) else none,
    some (lit "Sync: " ++ status),
    if opMessage ≠ [] then some (lit "Msg: " ++ opText) else none,
    if notif.Message ≠ [] ∧ notif.Message ≠ opMessage then some msgText else none ]

/-- The reference definition of the deployment message: the included
segments, joined by `" | "`. -/
def specArgocdMessage (notif : ArgocdNotification) : Option GoString := do
  let opText ← truncateString notif.App.Status.OperationState.Message 50
  let msgText ← truncateString notif.Message 50
  pure (strings.Join ((specSegments notif opText msgText).filterMap id) (lit " | "))

/-- A deployment notification with the given fields and nothing else. -/
def mkNotification (name project ns syncStatus opMessage message : GoString)
    (context : Option (List (GoString × Iface))) : ArgocdNotification :=
  { Message := message
    App :=
      { Metadata := { Name := name, Namespace := [] }
        Spec :=
          { Project := project
            Source := { RepoURL := [], Path := [], TargetRevision := [] }
            Destination := { Server := [], Namespace := ns } }
        Status :=
          { Sync := { Status := syncStatus, Revision := [] }
            Health := { Status := [], Message := [] }
            OperationState := { Phase := [], Message := opMessage } } }
    Context := context
    ServiceType := [] }

/-- The scenario of the specification: `payments-api`, project `default`,
namespace `prod`, out of sync, no messages. -/
def paymentsNotification : ArgocdNotification :=
  mkNotification (lit "payments-api") (lit "default") (lit "prod") (lit "OutOfSync") [] [] none

/-- An out-of-sync notification without application name. -/
def namelessNotification : ArgocdNotification :=
  mkNotification [] [] [] (lit "OutOfSync") [] [] none

/-- The receiver `r` is the first of `receivers` whose name is `name`. -/
def IsFirstNamed (receivers : List config.Receiver) (name : GoString) (r : config.Receiver) :
    Prop :=
  ∃ before after, receivers = before ++ r :: after ∧ r.Name = name ∧
    ∀ x ∈ before, x.Name ≠ name

/-- The notification without the key `receiver` in its context: the effect
of `delete(notif.Context, "receiver")`. -/
def removeContextReceiver (notif : ArgocdNotification) : ArgocdNotification :=
  { notif with
    Context := notif.Context.map (fun es => es.filter (fun e => e.1 != lit "receiver")) }

/-- The configuration `cfg` with deployment mapping `argo`, in which a range
over the prefix mapping visits `prefixEntries` in that order and a range over
the namespace mapping visits `namespaceEntries` in that order. -/
def withEnumeration (cfg : config.Config) (argo : config.ArgocdConfig)
    (prefixEntries namespaceEntries : List (GoString × GoString)) : config.Config :=
  { cfg with
    ArgoCD := some { argo with
      AppPrefixMapping := some prefixEntries
      NamespaceMapping := some namespaceEntries } }

/-- All entries whose key matches and whose value names a configured receiver
lead to one and the same receiver. -/
def SameTarget (receivers : List config.Receiver) (entries : List (GoString × GoString))
    (isMatch : GoString → Bool) : Prop :=
  ∀ e ∈ entries, ∀ e' ∈ entries, isMatch e.1 = true → isMatch e'.1 = true →
    ∀ r r', firstNamed receivers e.2 = some r → firstNamed receivers e'.2 = some r' → r = r'

/-- A configured receiver with the given name and raw mobile string. -/
def mkReceiver (name mobile : GoString) : config.Receiver :=
  { Name := name, Mobiles := [], Mobile := mobile, Schedule := none, Match := none }

/-- A deployment mapping in which every strategy names another receiver. -/
def conflictArgo : config.ArgocdConfig :=
  { Enabled := true
    AppMapping := some [(lit "payments-api", lit "team-app")]
    AppPrefixMapping := some [(lit "pay", lit "team-pfx")]
    ProjectMapping := some [(lit "billing", lit "team-proj")]
    NamespaceMapping := some [(lit "prod", lit "team-ns")]
    DefaultReceiver := lit "team-def" }

/-- A configuration as `json.Unmarshal` leaves it (before `Normalize`) in
which every strategy of the deployment resolver names another receiver. -/
def conflictConfig : config.Config :=
  { Receivers :=
      [ mkReceiver (lit "team-ctx") (lit "0901"),
        mkReceiver (lit "team-app") (lit "0902"),
        mkReceiver (lit "team-pfx") (lit "0903"),
        mkReceiver (lit "team-proj") (lit "0904"),
        mkReceiver (lit "team-ns") (lit "0905"),
        mkReceiver (lit "team-def") (lit "0906"),
        mkReceiver (lit "alert-devops") (lit "0907, 0908") ]
    Receiver := []
    DefaultReceiver := { Mobiles := [], Mobile := lit "0999", Schedule := none }
    ArgoCD := some conflictArgo }

/-- A notification that matches at every strategy of `conflictConfig`. -/
def conflictNotification : ArgocdNotification :=
  mkNotification (lit "payments-api") (lit "Billing") (lit "prod-eu") (lit "OutOfSync") [] []
    (some [(lit "receiver", Iface.str (lit "team-ctx"))])

/-- The same notification with a context receiver that is not configured. -/
def ghostNotification : ArgocdNotification :=
  mkNotification (lit "payments-api") (lit "Billing") (lit "prod-eu") (lit "OutOfSync") [] []
    (some [(lit "receiver", Iface.str (lit "ghost"))])

/-- A notification, without context, whose application name is no key of the
exact mapping of `conflictConfig`. -/
def webNotification : ArgocdNotification :=
  mkNotification (lit "payments-web") (lit "misc") (lit "staging") (lit "OutOfSync") [] [] none

/-- A prefix mapping with two keys that are both prefixes of `payments-web`
and name two configured receivers. -/
def overlapPrefixes : List (GoString × GoString) :=
  [(lit "pay", lit "team-pfx"), (lit "payments", lit "team-proj")]

/-- A prefix mapping with four keys: `p`, `pay` and `payments` are prefixes
of `payments-web`; `p` names `ghost`, which is not configured, the other two
name the configured receiver `team-pfx`; `inventory` is no prefix. -/
def agreeingPrefixes : List (GoString × GoString) :=
  [(lit "p", lit "ghost"), (lit "pay", lit "team-pfx"), (lit "inventory", lit "team-proj"),
   (lit "payments", lit "team-pfx")]

/-- A namespace mapping with two patterns that both occur in `staging` and
name the same configured receiver. -/
def agreeingNamespaces : List (GoString × GoString) :=
  [(lit "stag", lit "team-ns"), (lit "staging", lit "team-ns")]

/-- A configuration, as decoded, with one receiver, no deployment mapping
and no receiver called `alert-devops` or `default`. -/
def plainConfig : config.Config :=
  { Receivers := [mkReceiver (lit "team-a") (lit "0901")]
    Receiver := []
    DefaultReceiver := { Mobiles := [], Mobile := lit "0999", Schedule := none }
    ArgoCD := none }

/-- A notification whose context names the receiver `default`. -/
def defaultNamedNotification : ArgocdNotification :=
  mkNotification (lit "web") (lit "misc") (lit "staging") (lit "OutOfSync") [] []
    (some [(lit "receiver", Iface.str (lit "default"))])

/-- The receiver `mkReceiver name mobile` after `Normalize`. -/
def normalizedReceiver (name mobile : GoString) (mobiles : List GoString) : config.Receiver :=
  { mkReceiver name mobile with Mobiles := mobiles }

/-- A notification that matches no mapping of `conflictConfig`. -/
def orphanNotification : ArgocdNotification :=
  mkNotification (lit "web") (lit "misc") (lit "staging") (lit "OutOfSync") [] [] none

end handler

/-! ## Package `handler`: the HTTP handler of alerts -/

namespace handler

/-- What `HandleAlert` learns from the request: whether `io.ReadAll(r.Body)`
returned an error, and the value `json.Unmarshal` decoded from the body
(`none` when it returned an error). -/
structure AlertRequest where
  readError : Bool
  parsed : Option AlertData
  deriving DecidableEq, Repr

/-- The response of `http.Error(w, "invalid alert format", 400)`, with no
call of the forwarder. -/
def invalidAlertFormat : AlertOutcome :=
  { sendCalls := []
    response := { Status := 400, Body := lit "invalid alert format" ++ [10] } }

/-- The function `HandleAlert` (the handler it returns, applied to one
request). -/
def HandleAlert (cfg : config.Config) (request : AlertRequest) : Option AlertOutcome :=
  if request.readError then
    some { sendCalls := []
           response := { Status := 400, Body := lit "cannot read request body" ++ [10] } }
  else
    match request.parsed with
    | some alertData =>
      match alertData.Alerts with
      | first :: _ =>
        if first.Status = [] ∨ mapIndex first.Labels (lit "severity") = [] then
          some invalidAlertFormat
        else
          processAlert alertData cfg
      | [] => some invalidAlertFormat
    | none => some invalidAlertFormat

/-- An alert with the given status, labels and summary annotation. -/
def mkAlert (status : GoString) (labels : List (GoString × GoString)) (summary : GoString) :
    Alert :=
  { Status := status, Labels := some labels, Annotations := some [(lit "summary", summary)] }

/-- The alert of the scenario of the specification: firing, critical,
instance `host-1`, alert name `CPUHigh`, summary `cpu spike`. -/
def cpuAlert : Alert :=
  mkAlert (lit "firing")
    [(lit "severity", lit "critical"), (lit "instance", lit "host-1"),
     (lit "alertname", lit "CPUHigh")]
    (lit "cpu spike")

/-- A firing critical alert whose instance label is the text
`unknown-instance`. -/
def placeholderAlert : Alert :=
  mkAlert (lit "firing")
    [(lit "severity", lit "critical"), (lit "instance", lit "unknown-instance"),
     (lit "alertname", lit "CPUHigh")]
    (lit "cpu spike")

/-- A firing critical alert without the labels instance, topic and
consumergroup. -/
def bareAlert : Alert :=
  mkAlert (lit "firing")
    [(lit "severity", lit "critical"), (lit "alertname", lit "DiskFull")]
    (lit "disk full")

/-- A normalized configuration with the receiver `alert-d1-lgc-devops`. -/
def legacyConfig : config.Config :=
  config.Normalize
    { Receivers :=
        [ mkReceiver (lit "alert-devops") (lit "0907, 0908"),
          mkReceiver (lit "alert-d1-lgc-devops") (lit "0911,0912") ]
      Receiver := []
      DefaultReceiver := { Mobiles := [], Mobile := lit "0999", Schedule := none }
      ArgoCD := none }

end handler

/-! ## Package `config`: the directory-wide mobile set -/

namespace config

/-- The assignment `mobileSet[p] = struct{}{}` on the keys of the map: `p` is
added when it is not a key yet. -/
def setInsert (keys : List GoString) (p : GoString) : List GoString :=
  if p ∈ keys then keys else keys ++ [p]

/-- The function `(*Config).AllMobiles`.  The keys of the local map
`mobileSet` are kept as a list without repetition; `rangeOrder keys` is the
order in which the final `range` over the map visits them, which Go leaves
unspecified. -/
def AllMobiles (rangeOrder : List GoString → List GoString) (c : Config) : List GoString :=
  let mobileSet : List GoString := []
  let mobileSet := c.Receivers.foldl (fun keys r => r.Mobiles.foldl setInsert keys) mobileSet
  let mobileSet := c.DefaultReceiver.Mobiles.foldl setInsert mobileSet
  (rangeOrder mobileSet).foldl (fun mobiles p => mobiles ++ [p]) []

end config

/-! ## Further reference definitions and concrete inputs -/

namespace handler

/-- The notification `notif` with the project `project`. -/
def setProject (notif : ArgocdNotification) (project : GoString) : ArgocdNotification :=
  { notif with App := { notif.App with Spec := { notif.App.Spec with Project := project } } }

/-- The configuration `cfg` in which every receiver `r` has the schedule
`schedule r` and the default receiver the schedule `defaultSchedule`. -/
def setSchedules (schedule : config.Receiver → Option config.SMSSchedule)
    (defaultSchedule : Option config.SMSSchedule) (cfg : config.Config) : config.Config :=
  { cfg with
    Receivers := cfg.Receivers.map (fun r => { r with Schedule := schedule r })
    Receiver := cfg.Receiver.map (fun r => { r with Schedule := schedule r })
    DefaultReceiver := { cfg.DefaultReceiver with Schedule := defaultSchedule } }

/-- A schedule that is enabled from 09:00:00 to 17:00:00, UTC. -/
def officeHours : config.SMSSchedule :=
  { Enabled := true, StartTime := lit "09:00:00", EndTime := lit "17:00:00",
    Timezone := lit "UTC" }

/-- The configuration `conflictConfig`, normalized, in which every receiver
and the default receiver are scheduled for office hours. -/
def officeConfig : config.Config :=
  setSchedules (fun _ => some officeHours) (some officeHours) (config.Normalize conflictConfig)

/-- A notification, without context and with an application that no exact
or prefix mapping of `conflictConfig` matches, of project `Billing`. -/
def projectNotification : ArgocdNotification :=
  mkNotification (lit "web") (lit "Billing") (lit "staging") (lit "OutOfSync") [] [] none

/-- A configuration in which one number is listed by two receivers and by
the default receiver. -/
def sharedConfig : config.Config :=
  { Receivers :=
      [ mkReceiver (lit "alert-devops") (lit "0907, 0908"),
        mkReceiver (lit "alert-d1-lgc-devops") (lit "0908,0911, 0907") ]
    Receiver := []
    DefaultReceiver := { Mobiles := [], Mobile := lit "0911 ,0999", Schedule := none }
    ArgoCD := none }

end handler

/-! ## Theorems -/

namespace handler
open config

/-! ### The alert-fire rule -/

theorem alertFires_iff (status severity : GoString) :
    alertFires status severity = true ↔
      (status = lit "resolved" ∨ (status = lit "firing" ∧ severity = lit "critical")) := by
  simp [alertFires]

/-- C1. Alert-fire rule: for a payload whose first alert has status `s` and
severity label `v`, `processAlert` returns; it makes a call of
`SendToMultipleMobiles` exactly when `s = "resolved"` or (`s = "firing"` and
`v = "critical"`), and then it makes one call, with the message built from the
declared receiver and the first alert, and answers "Alert processed"; in every
other case it makes no call and answers 200 with the text of the ignored
alert. -/
theorem processAlert_fire_rule (receiver : GoString) (alert : Alert) (rest : List Alert)
    (cfg : config.Config) :
    ∃ out, processAlert { Receiver := receiver, Alerts := alert :: rest } cfg = some out ∧
      (out.sendCalls ≠ [] ↔
        (alert.Status = lit "resolved" ∨
          (alert.Status = lit "firing" ∧ mapIndex alert.Labels (lit "severity") = lit "critical"))) ∧
      ((alert.Status = lit "resolved" ∨
          (alert.Status = lit "firing" ∧ mapIndex alert.Labels (lit "severity") = lit "critical")) →
        (∃ mobiles, out.sendCalls = [(mobiles, buildAlertMessage receiver alert)]) ∧
          out.response = { Status := 200, Body := lit "Alert processed ✅" }) ∧
      (¬ (alert.Status = lit "resolved" ∨
          (alert.Status = lit "firing" ∧ mapIndex alert.Labels (lit "severity") = lit "critical")) →
        out = { sendCalls := []
                response := { Status := 200, Body := lit "⚠️ Alert ignored by default rules" } }) := by
  by_cases h : alertFires alert.Status (mapIndex alert.Labels (lit "severity")) = true
  · have h' := (alertFires_iff _ _).mp h
    cases hf : cfg.Receivers.find? (fun r => r.Name == receiver) with
    | none =>
      refine ⟨_, by simp only [processAlert, h, hf]; rfl, ?_, ?_, ?_⟩
      · simp [h']
      · intro _; exact ⟨⟨_, rfl⟩, rfl⟩
      · intro hn; exact absurd h' hn
    | some r =>
      refine ⟨_, by simp only [processAlert, h, hf]; rfl, ?_, ?_, ?_⟩
      · simp [h']
      · intro _; exact ⟨⟨_, rfl⟩, rfl⟩
      · intro hn; exact absurd h' hn
  · have h' : ¬ _ := fun hh => h ((alertFires_iff _ _).mpr hh)
    refine ⟨_, by simp only [processAlert, h]; rfl, ?_, ?_, ?_⟩
    · simp [h']
    · intro hh; exact absurd hh h'
    · intro _; rfl

/-! ### The deployment message -/

theorem wrapInt64_47 : wrapInt64 (50 - 3) = 47 := by decide

/-- With the limit 50 of the callers `truncateString` does not panic. -/
theorem truncateString_50 (s : GoString) :
    ∃ t, truncateString s 50 = some t := by
  unfold truncateString
  split
  · exact ⟨_, rfl⟩
  · rename_i h
    rw [wrapInt64_47]
    have h47 : (0 : Int) ≤ 47 ∧ (47 : Int) ≤ (s.length : Int) := by omega
    exact ⟨s.take 47 ++ lit "...", by simp [sliceTo, h47]⟩

theorem lit_OutOfSync_ne_nil : lit "OutOfSync" ≠ [] := by decide
theorem lit_Unknown_ne_nil : lit "Unknown" ≠ [] := by decide
theorem lit_Unknown_ne_OutOfSync : lit "Unknown" ≠ lit "OutOfSync" := by decide

/-- For an alert-worthy sync status the code builds the reference message. -/
theorem buildArgocdMessage_eq_spec (notif : ArgocdNotification)
    (h : notif.App.Status.Sync.Status = lit "OutOfSync" ∨
      notif.App.Status.Sync.Status = lit "Unknown") :
    ∃ m, buildArgocdMessage notif = some m ∧ specArgocdMessage notif = some m := by
  obtain ⟨t1, h1⟩ := truncateString_50 notif.App.Status.OperationState.Message
  obtain ⟨t2, h2⟩ := truncateString_50 notif.Message
  rcases h with h | h
  · simp only [buildArgocdMessage, specArgocdMessage, specSegments, specTag, h, h1, h2]
    by_cases hp : notif.App.Spec.Project ≠ [] ∧ notif.App.Spec.Project ≠ lit "default" <;>
    by_cases hn : notif.App.Spec.Destination.Namespace ≠ [] <;>
    by_cases ho : notif.App.Status.OperationState.Message ≠ [] <;>
    by_cases hm : notif.Message ≠ [] ∧ notif.Message ≠ notif.App.Status.OperationState.Message <;>
    simp [hp, hn, ho, hm, lit_OutOfSync_ne_nil]
  · simp only [buildArgocdMessage, specArgocdMessage, specSegments, specTag, h, h1, h2]
    by_cases hp : notif.App.Spec.Project ≠ [] ∧ notif.App.Spec.Project ≠ lit "default" <;>
    by_cases hn : notif.App.Spec.Destination.Namespace ≠ [] <;>
    by_cases ho : notif.App.Status.OperationState.Message ≠ [] <;>
    by_cases hm : notif.Message ≠ [] ∧ notif.Message ≠ notif.App.Status.OperationState.Message <;>
    simp [hp, hn, ho, hm, lit_Unknown_ne_nil, lit_Unknown_ne_OutOfSync]


theorem Join_cons_cons (a b : GoString) (rest : List GoString) (sep : GoString) :
    strings.Join (a :: b :: rest) sep = a ++ (sep ++ strings.Join (b :: rest) sep) := by
  simp [strings.Join]

/-- For an alert-worthy sync status the message starts with the bracketed
tag and is not empty. -/
theorem buildArgocdMessage_tag (notif : ArgocdNotification)
    (h : notif.App.Status.Sync.Status = lit "OutOfSync" ∨
      notif.App.Status.Sync.Status = lit "Unknown") :
    ∃ m tail, buildArgocdMessage notif = some m ∧
      m = (lit "[" ++ specTag notif.App.Status.Sync.Status ++ lit "]") ++ tail := by
  obtain ⟨m, hm, hs⟩ := buildArgocdMessage_eq_spec notif h
  obtain ⟨t1, h1⟩ := truncateString_50 notif.App.Status.OperationState.Message
  obtain ⟨t2, h2⟩ := truncateString_50 notif.Message
  simp only [specArgocdMessage, specSegments, h1, h2, Option.bind_eq_bind, Option.some_bind,
    Option.pure_def, List.filterMap_cons_some, id_eq, Option.some.injEq, Join_cons_cons] at hs
  exact ⟨m, _, hm, hs.symm⟩

/-- C7. Deployment ignore rule: `buildArgocdMessage` returns a string for
every notification; the string is empty if and only if the sync status is
neither "OutOfSync" nor "Unknown"; for "OutOfSync" it starts with
"[OUT OF SYNC]" and for "Unknown" with "[SYNC UNKNOWN]"; and on the empty
string `processArgocdNotification` sends nothing and answers 200
"ArgoCD notification ignored". -/
theorem buildArgocdMessage_ignore_rule (notif : ArgocdNotification) :
    ∃ m, buildArgocdMessage notif = some m ∧
      (m = [] ↔ (notif.App.Status.Sync.Status ≠ lit "OutOfSync" ∧
        notif.App.Status.Sync.Status ≠ lit "Unknown")) ∧
      (notif.App.Status.Sync.Status = lit "OutOfSync" → lit "[OUT OF SYNC]" <+: m) ∧
      (notif.App.Status.Sync.Status = lit "Unknown" → lit "[SYNC UNKNOWN]" <+: m) ∧
      (m = [] → ∀ (toLower : GoString → GoString) (sendFails : GoString → GoString → Bool)
          (cfg : config.Config),
        processArgocdNotification toLower sendFails notif cfg =
          some { smsCalls := []
                 response := { Status := 200, Body := lit "ArgoCD notification ignored" } }) := by
  have hproc : ∀ m, buildArgocdMessage notif = some m → m = [] →
      ∀ (toLower : GoString → GoString) (sendFails : GoString → GoString → Bool)
        (cfg : config.Config),
      processArgocdNotification toLower sendFails notif cfg =
        some { smsCalls := []
               response := { Status := 200, Body := lit "ArgoCD notification ignored" } } := by
    intro m hm hnil toLower sendFails cfg
    subst hnil
    simp [processArgocdNotification, hm]
  by_cases h1 : notif.App.Status.Sync.Status = lit "OutOfSync"
  · obtain ⟨m, tail, hm, hshape⟩ := buildArgocdMessage_tag notif (Or.inl h1)
    have htag : lit "[" ++ specTag notif.App.Status.Sync.Status ++ lit "]" = lit "[OUT OF SYNC]" := by
      rw [h1]; decide
    rw [htag] at hshape
    have hne : m ≠ [] := by
      rw [hshape]; intro hc
      have := congrArg List.length hc
      simp at this
      exact absurd this.1 (by decide)
    refine ⟨m, hm, ?_, ?_, ?_, hproc m hm⟩
    · constructor
      · intro hc; exact absurd hc hne
      · intro hc; exact absurd h1 hc.1
    · intro _; exact ⟨tail, hshape.symm⟩
    · intro hu; rw [h1] at hu; exact absurd hu.symm lit_Unknown_ne_OutOfSync
  · by_cases h2 : notif.App.Status.Sync.Status = lit "Unknown"
    · obtain ⟨m, tail, hm, hshape⟩ := buildArgocdMessage_tag notif (Or.inr h2)
      have htag : lit "[" ++ specTag notif.App.Status.Sync.Status ++ lit "]" = lit "[SYNC UNKNOWN]" := by
        rw [h2]; decide
      rw [htag] at hshape
      have hne : m ≠ [] := by
        rw [hshape]; intro hc
        have := congrArg List.length hc
        simp at this
        exact absurd this.1 (by decide)
      refine ⟨m, hm, ?_, ?_, ?_, hproc m hm⟩
      · constructor
        · intro hc; exact absurd hc hne
        · intro hc; exact absurd h2 hc.2
      · intro ho; exact absurd ho h1
      · intro _; exact ⟨tail, hshape.symm⟩
    · have hm : buildArgocdMessage notif = some [] := by
        simp [buildArgocdMessage, h1, h2]
      refine ⟨[], hm, ?_, ?_, ?_, hproc [] hm⟩
      · simp [h1, h2]
      · intro ho; exact absurd ho h1
      · intro hu; exact absurd hu h2

/-- C8 (as stated, refuted). On the scenario of the specification the code
puts the separator `" | "` also between the tag and the `App:` segment, so the
message is not the string the claim gives as its witness. -/
theorem buildArgocdMessage_payments_separator :
    buildArgocdMessage paymentsNotification =
        some (lit "[OUT OF SYNC] | App: payments-api | NS: prod | Sync: OutOfSync") ∧
      buildArgocdMessage paymentsNotification ≠
        some (lit "[OUT OF SYNC] App: payments-api | NS: prod | Sync: OutOfSync") := by
  decide

/-- C8 (amended). Deployment message reference definition: for every
notification with sync status "OutOfSync" or "Unknown" and a non-empty
application name, `buildArgocdMessage` returns the `" | "`-join of the
segments of `specSegments`, in their order: the bracketed tag, `App: name`,
`Project: project` when the project is neither empty nor "default",
`NS: namespace` when non-empty, `Sync: status`, `Msg: ` with the truncated
operation message when that message is non-empty, and the truncated free-text
message when it is non-empty and differs from the operation message. -/
theorem buildArgocdMessage_reference (notif : ArgocdNotification)
    (hstatus : notif.App.Status.Sync.Status = lit "OutOfSync" ∨
      notif.App.Status.Sync.Status = lit "Unknown")
    (_hname : notif.App.Metadata.Name ≠ []) :
    ∃ m, buildArgocdMessage notif = some m ∧ specArgocdMessage notif = some m :=
  buildArgocdMessage_eq_spec notif hstatus

/-- Witness of C8 (amended), on the scenario of the specification. -/
theorem buildArgocdMessage_reference_witness :
    (paymentsNotification.App.Status.Sync.Status = lit "OutOfSync" ∨
        paymentsNotification.App.Status.Sync.Status = lit "Unknown") ∧
      paymentsNotification.App.Metadata.Name ≠ [] ∧
      (∃ m, buildArgocdMessage paymentsNotification = some m ∧
        specArgocdMessage paymentsNotification = some m) ∧
      specArgocdMessage paymentsNotification =
        some (lit "[OUT OF SYNC] | App: payments-api | NS: prod | Sync: OutOfSync") :=
  ⟨by decide, by decide,
    buildArgocdMessage_reference paymentsNotification (by decide) (by decide), by decide⟩

/-- C9 (as stated, refuted). With an empty application name the message
still has its `App: ` segment. -/
theorem buildArgocdMessage_nameless_has_app :
    namelessNotification.App.Metadata.Name = [] ∧
      buildArgocdMessage namelessNotification =
        some (strings.Join [lit "[OUT OF SYNC]", lit "App: ", lit "Sync: OutOfSync"] (lit " | ")) := by
  decide

/-- C9 (amended). For every notification with sync status "OutOfSync" or
"Unknown" the message is the `" | "`-join of the tag, the segment
`App: name` (both always there, also when the name is empty), then the
optional segments, each of which is there only if its source field is
non-empty: project, namespace, sync status (never empty here), operation
message, free-text message. -/
theorem buildArgocdMessage_segments (notif : ArgocdNotification)
    (hstatus : notif.App.Status.Sync.Status = lit "OutOfSync" ∨
      notif.App.Status.Sync.Status = lit "Unknown") :
    ∃ (projectSeg nsSeg opSeg msgSeg : List GoString) (opText msgText : GoString),
      buildArgocdMessage notif =
        some (strings.Join
          ([lit "[" ++ specTag notif.App.Status.Sync.Status ++ lit "]",
            lit "App: " ++ notif.App.Metadata.Name]
            ++ projectSeg ++ nsSeg ++ [lit "Sync: " ++ notif.App.Status.Sync.Status]
            ++ opSeg ++ msgSeg)
          (lit " | ")) ∧
      notif.App.Status.Sync.Status ≠ [] ∧
      (projectSeg = [] ∨
        (notif.App.Spec.Project ≠ [] ∧ projectSeg = [lit "Project: " ++ notif.App.Spec.Project])) ∧
      (nsSeg = [] ∨
        (notif.App.Spec.Destination.Namespace ≠ [] ∧
          nsSeg = [lit "NS: " ++ notif.App.Spec.Destination.Namespace])) ∧
      (opSeg = [] ∨
        (notif.App.Status.OperationState.Message ≠ [] ∧
          truncateString notif.App.Status.OperationState.Message 50 = some opText ∧
          opSeg = [lit "Msg: " ++ opText])) ∧
      (msgSeg = [] ∨
        (notif.Message ≠ [] ∧ truncateString notif.Message 50 = some msgText ∧
          msgSeg = [msgText])) := by
  obtain ⟨m, hm, hs⟩ := buildArgocdMessage_eq_spec notif hstatus
  obtain ⟨t1, h1⟩ := truncateString_50 notif.App.Status.OperationState.Message
  obtain ⟨t2, h2⟩ := truncateString_50 notif.Message
  have hne : notif.App.Status.Sync.Status ≠ [] := by
    rcases hstatus with h | h <;> rw [h]
    · exact lit_OutOfSync_ne_nil
    · exact lit_Unknown_ne_nil
  refine ⟨if notif.App.Spec.Project ≠ [] ∧ notif.App.Spec.Project ≠ lit "default"
      then [lit "Project: " ++ notif.App.Spec.Project] else [],
    if notif.App.Spec.Destination.Namespace ≠ []
      then [lit "NS: " ++ notif.App.Spec.Destination.Namespace] else [],
    if notif.App.Status.OperationState.Message ≠ [] then [lit "Msg: " ++ t1] else [],
    if notif.Message ≠ [] ∧ notif.Message ≠ notif.App.Status.OperationState.Message
      then [t2] else [],
    t1, t2, ?_, hne, ?_, ?_, ?_, ?_⟩
  · rw [hm, ← hs]
    simp only [specArgocdMessage, specSegments, h1, h2, Option.bind_eq_bind, Option.some_bind,
      Option.pure_def]
    by_cases hp : notif.App.Spec.Project ≠ [] ∧ notif.App.Spec.Project ≠ lit "default" <;>
    by_cases hn : notif.App.Spec.Destination.Namespace ≠ [] <;>
    by_cases ho : notif.App.Status.OperationState.Message ≠ [] <;>
    by_cases hmm : notif.Message ≠ [] ∧
      notif.Message ≠ notif.App.Status.OperationState.Message <;>
    simp [hp, hn, ho, hmm]
  · by_cases hp : notif.App.Spec.Project ≠ [] ∧ notif.App.Spec.Project ≠ lit "default"
    · right; exact ⟨hp.1, by simp [hp]⟩
    · left; simp [hp]
  · by_cases hn : notif.App.Spec.Destination.Namespace ≠ []
    · right; exact ⟨hn, by simp [hn]⟩
    · left; simp [hn]
  · by_cases ho : notif.App.Status.OperationState.Message ≠ []
    · right; exact ⟨ho, h1, by simp [ho]⟩
    · left; simp [ho]
  · by_cases hmm : notif.Message ≠ [] ∧
      notif.Message ≠ notif.App.Status.OperationState.Message
    · right; exact ⟨hmm.1, h2, by simp [hmm]⟩
    · left; simp [hmm]

/-- Witness of C9 (amended), on the notification without application name. -/
theorem buildArgocdMessage_segments_witness :
    (namelessNotification.App.Status.Sync.Status = lit "OutOfSync" ∨
        namelessNotification.App.Status.Sync.Status = lit "Unknown") ∧
    ∃ (projectSeg nsSeg opSeg msgSeg : List GoString) (opText msgText : GoString),
      buildArgocdMessage namelessNotification =
        some (strings.Join
          ([lit "[" ++ specTag namelessNotification.App.Status.Sync.Status ++ lit "]",
            lit "App: " ++ namelessNotification.App.Metadata.Name]
            ++ projectSeg ++ nsSeg
            ++ [lit "Sync: " ++ namelessNotification.App.Status.Sync.Status]
            ++ opSeg ++ msgSeg)
          (lit " | ")) ∧
      namelessNotification.App.Status.Sync.Status ≠ [] ∧
      (projectSeg = [] ∨
        (namelessNotification.App.Spec.Project ≠ [] ∧
          projectSeg = [lit "Project: " ++ namelessNotification.App.Spec.Project])) ∧
      (nsSeg = [] ∨
        (namelessNotification.App.Spec.Destination.Namespace ≠ [] ∧
          nsSeg = [lit "NS: " ++ namelessNotification.App.Spec.Destination.Namespace])) ∧
      (opSeg = [] ∨
        (namelessNotification.App.Status.OperationState.Message ≠ [] ∧
          truncateString namelessNotification.App.Status.OperationState.Message 50 = some opText ∧
          opSeg = [lit "Msg: " ++ opText])) ∧
      (msgSeg = [] ∨
        (namelessNotification.Message ≠ [] ∧
          truncateString namelessNotification.Message 50 = some msgText ∧
          msgSeg = [msgText])) :=
  ⟨by decide, buildArgocdMessage_segments namelessNotification (by decide)⟩

/-- C10 (as stated, refuted). With the limit 2 and a string of four bytes
`truncateString` evaluates the slice `s[:-1]` and panics; it returns no
result, so no result of length at most 2. -/
theorem truncateString_limit_two_panics :
    truncateString (lit "abcd") 2 = none := by
  decide

/-- C10 (amended). Truncation length bound: for every string `s` and every
limit `n` (a Go `int`, so below `2^63`) with `3 ≤ n` or `len(s) ≤ n`,
`truncateString(s, n)` returns a result, and the result has at most `n`
bytes. -/
theorem truncateString_length_le (s : GoString) (n : Int) (hint : n < 2 ^ 63)
    (hn : 3 ≤ n ∨ (s.length : Int) ≤ n) :
    ∃ r, truncateString s n = some r ∧ (r.length : Int) ≤ n := by
  by_cases hle : (s.length : Int) ≤ n
  · exact ⟨s, by simp [truncateString, hle], hle⟩
  · have h3 : 3 ≤ n := hn.resolve_right hle
    have hw : wrapInt64 (n - 3) = n - 3 := by
      unfold wrapInt64
      have h263 : (2 : Int) ^ 63 = 9223372036854775808 := by norm_num
      have h264 : (2 : Int) ^ 64 = 18446744073709551616 := by norm_num
      rw [h263, h264] at *
      omega
    have hb : 0 ≤ n - 3 ∧ n - 3 ≤ (s.length : Int) := by omega
    refine ⟨s.take (n - 3).toNat ++ lit "...", by simp [truncateString, hle, hw, sliceTo, hb], ?_⟩
    have hl : (lit "...").length = 3 := by decide
    rw [List.length_append, List.length_take, hl]
    omega

/-- Witness of C10 (amended): the limit 50 of the call sites, on a string of
sixty bytes. -/
theorem truncateString_length_le_witness :
    (50 : Int) < 2 ^ 63 ∧
      ((3 : Int) ≤ 50 ∨
        ((lit "012345678901234567890123456789012345678901234567890123456789").length : Int)
          ≤ 50) ∧
      ∃ r, truncateString (lit "012345678901234567890123456789012345678901234567890123456789")
          50 = some r ∧ (r.length : Int) ≤ 50 :=
  ⟨by decide, Or.inl (by decide),
    truncateString_length_le _ 50 (by decide) (Or.inl (by decide))⟩

/-! ### The deployment resolver -/

theorem firstNamed_eq_some_iff (receivers : List Receiver) (name : GoString) (r : Receiver) :
    firstNamed receivers name = some r ↔ IsFirstNamed receivers name r := by
  unfold firstNamed IsFirstNamed
  rw [List.find?_eq_some]
  constructor
  · rintro ⟨hp, before, after, hl, hb⟩
    refine ⟨before, after, hl, by simpa using hp, ?_⟩
    intro x hx; simpa using hb x hx
  · rintro ⟨before, after, hl, hn, hb⟩
    refine ⟨by simpa using hn, before, after, hl, ?_⟩
    intro x hx; simpa using hb x hx

theorem firstNamed_eq_none_iff (receivers : List Receiver) (name : GoString) :
    firstNamed receivers name = none ↔ ∀ x ∈ receivers, x.Name ≠ name := by
  unfold firstNamed
  simp

theorem firstNamed_mem {receivers : List Receiver} {name : GoString} {r : Receiver}
    (h : firstNamed receivers name = some r) : r ∈ receivers :=
  List.mem_of_find?_eq_some h

theorem exists_firstNamed {receivers : List Receiver} {name : GoString}
    (h : ∃ x ∈ receivers, x.Name = name) : ∃ r, firstNamed receivers name = some r := by
  cases hf : firstNamed receivers name with
  | some r => exact ⟨r, rfl⟩
  | none =>
    obtain ⟨x, hx, hn⟩ := h
    exact absurd hn ((firstNamed_eq_none_iff _ _).mp hf x hx)

theorem Normalize_Receiver (cfg : Config) : (Normalize cfg).Receiver = (Normalize cfg).Receivers :=
  rfl

theorem Normalize_ArgoCD (cfg : Config) : (Normalize cfg).ArgoCD = cfg.ArgoCD := rfl

theorem contextReceiver_of_lookup {notif : ArgocdNotification} {name : GoString}
    (hctx : mapLookup notif.Context (lit "receiver") = some (Iface.str name)) (hne : name ≠ []) :
    contextReceiver notif = some name := by
  simp [contextReceiver, hctx, hne]

theorem fromContext_eq_none {notif : ArgocdNotification} {cfg : Config}
    (h : ∀ name, contextReceiver notif = some name → ∀ x ∈ cfg.Receiver, x.Name ≠ name) :
    fromContext notif cfg = none := by
  unfold fromContext
  cases hc : contextReceiver notif with
  | none => rfl
  | some name => exact (firstNamed_eq_none_iff _ _).mpr (h name hc)

/-- C2. Deployment resolver, strategy 1 wins: for every normalized
configuration and every notification whose context holds, under the key
`receiver`, a non-empty string that is the name of a configured receiver,
`determineArgocdReceiver` returns the first configured receiver with that
name; nothing is assumed about the mappings and the configured default. -/
theorem determineArgocdReceiver_context_wins (toLower : GoString → GoString) (cfg : Config)
    (notif : ArgocdNotification) (name : GoString)
    (hctx : mapLookup notif.Context (lit "receiver") = some (Iface.str name))
    (hne : name ≠ [])
    (hcfg : ∃ x ∈ (Normalize cfg).Receivers, x.Name = name) :
    IsFirstNamed (Normalize cfg).Receivers name
      (determineArgocdReceiver toLower notif (Normalize cfg)) := by
  obtain ⟨r, hr⟩ := exists_firstNamed hcfg
  have h1 : fromContext notif (Normalize cfg) = some r := by
    simp only [fromContext, contextReceiver_of_lookup hctx hne, Normalize_Receiver, hr]
  have hd : determineArgocdReceiver toLower notif (Normalize cfg) = r := by
    simp only [determineArgocdReceiver, h1]
  rw [hd]
  exact (firstNamed_eq_some_iff _ _ _).mp hr

/-- Witness of C2: in `conflictConfig` the context names `team-ctx` while the
exact, prefix, project and namespace mappings and the default name five other
receivers. -/
theorem determineArgocdReceiver_context_wins_witness :
    mapLookup conflictNotification.Context (lit "receiver") = some (Iface.str (lit "team-ctx")) ∧
      lit "team-ctx" ≠ [] ∧
      (∃ x ∈ (Normalize conflictConfig).Receivers, x.Name = lit "team-ctx") ∧
      IsFirstNamed (Normalize conflictConfig).Receivers (lit "team-ctx")
        (determineArgocdReceiver strings.asciiToLower conflictNotification
          (Normalize conflictConfig)) :=
  ⟨by decide, by decide, ⟨_, List.mem_cons_self _ _, by decide⟩,
    determineArgocdReceiver_context_wins strings.asciiToLower conflictConfig conflictNotification
      (lit "team-ctx") (by decide) (by decide) ⟨_, List.mem_cons_self _ _, by decide⟩⟩

/-- C3. Deployment resolver, strategy 2 beats 3-7: for every normalized
configuration and every notification whose context names no configured
receiver, if the exact application-name mapping maps the application name to
`receiverName` and `r` is the first configured receiver with that name, then
`determineArgocdReceiver` returns `r`; nothing is assumed about the prefix,
project and namespace mappings and the configured default. -/
theorem determineArgocdReceiver_exact_app_wins (toLower : GoString → GoString) (cfg : Config)
    (notif : ArgocdNotification) (argo : ArgocdConfig) (receiverName : GoString) (r : Receiver)
    (hctx : ∀ name, contextReceiver notif = some name →
      ∀ x ∈ (Normalize cfg).Receivers, x.Name ≠ name)
    (hargo : cfg.ArgoCD = some argo)
    (hmap : mapLookup argo.AppMapping notif.App.Metadata.Name = some receiverName)
    (hr : IsFirstNamed (Normalize cfg).Receivers receiverName r) :
    determineArgocdReceiver toLower notif (Normalize cfg) = r := by
  have h1 : fromContext notif (Normalize cfg) = none := fromContext_eq_none hctx
  have hr' := (firstNamed_eq_some_iff _ _ _).mpr hr
  have h2 : fromAppMapping notif (Normalize cfg) = some r := by
    unfold fromAppMapping
    rw [Normalize_ArgoCD, hargo]
    cases hm : argo.AppMapping with
    | none => rw [hm] at hmap; simp [mapLookup] at hmap
    | some m =>
      rw [hm] at hmap
      simp only [mapLookup] at hmap
      simp only [hm, hmap, Normalize_Receiver, hr']
  simp only [determineArgocdReceiver, h1, h2]

/-- Witness of C3: the context names `ghost`, which is not configured; the
exact mapping names `team-app`, the other strategies other receivers. -/
theorem determineArgocdReceiver_exact_app_wins_witness :
    (∀ name, contextReceiver ghostNotification = some name →
        ∀ x ∈ (Normalize conflictConfig).Receivers, x.Name ≠ name) ∧
      conflictConfig.ArgoCD = some conflictArgo ∧
      mapLookup conflictArgo.AppMapping ghostNotification.App.Metadata.Name =
        some (lit "team-app") ∧
      IsFirstNamed (Normalize conflictConfig).Receivers (lit "team-app")
        (normalizedReceiver (lit "team-app") (lit "0902") [lit "0902"]) ∧
      determineArgocdReceiver strings.asciiToLower ghostNotification (Normalize conflictConfig) =
        normalizedReceiver (lit "team-app") (lit "0902") [lit "0902"] :=
  have hctx : ∀ name, contextReceiver ghostNotification = some name →
      ∀ x ∈ (Normalize conflictConfig).Receivers, x.Name ≠ name := by
    intro name hname
    have hg : contextReceiver ghostNotification = some (lit "ghost") := by decide
    rw [hg] at hname
    cases hname
    exact (firstNamed_eq_none_iff _ _).mp (by decide)
  have hr : IsFirstNamed (Normalize conflictConfig).Receivers (lit "team-app")
      (normalizedReceiver (lit "team-app") (lit "0902") [lit "0902"]) :=
    (firstNamed_eq_some_iff _ _ _).mp (by decide)
  ⟨hctx, rfl, by decide, hr,
    determineArgocdReceiver_exact_app_wins strings.asciiToLower conflictConfig ghostNotification
      conflictArgo (lit "team-app") _ hctx rfl (by decide) hr⟩

/-- When strategies 1 to 5 find nothing, the result is the first configured
receiver with the default name, or else the receiver of the last fallback. -/
theorem determineArgocdReceiver_of_none (toLower : GoString → GoString)
    (notif : ArgocdNotification) (cfg : Config)
    (h1 : fromContext notif cfg = none) (h2 : fromAppMapping notif cfg = none)
    (h3 : fromAppPrefixMapping notif cfg = none)
    (h4 : fromProjectMapping toLower notif cfg = none)
    (h5 : fromNamespaceMapping notif cfg = none) :
    determineArgocdReceiver toLower notif cfg =
      (firstNamed cfg.Receiver (defaultReceiverName cfg)).getD (lastFallback cfg) := by
  simp only [determineArgocdReceiver, h1, h2, h3, h4, h5]
  cases firstNamed cfg.Receiver (defaultReceiverName cfg) <;> rfl

/-- C4. Deployment resolver fallback chain: for every normalized
configuration and notification for which none of the strategies 1 to 5 yields
a configured receiver, `determineArgocdReceiver` returns
(1) the first configured receiver named by the `default_receiver` of the
deployment mapping, when that is set and configured;
(2) when no such default is set (no deployment mapping, or an empty
`default_receiver`): the first configured receiver named "alert-devops", and,
when "alert-devops" is not a configured receiver, the receiver with the name
"default", the raw mobile string of the global default receiver and no parsed
list, schedule or match;
(3) also that last receiver when the default that is set names no configured
receiver. -/
theorem determineArgocdReceiver_fallback_chain (toLower : GoString → GoString) (cfg : Config)
    (notif : ArgocdNotification)
    (h1 : fromContext notif (Normalize cfg) = none)
    (h2 : fromAppMapping notif (Normalize cfg) = none)
    (h3 : fromAppPrefixMapping notif (Normalize cfg) = none)
    (h4 : fromProjectMapping toLower notif (Normalize cfg) = none)
    (h5 : fromNamespaceMapping notif (Normalize cfg) = none) :
    (∀ argo, cfg.ArgoCD = some argo → argo.DefaultReceiver ≠ [] →
        ∀ r, IsFirstNamed (Normalize cfg).Receivers argo.DefaultReceiver r →
          determineArgocdReceiver toLower notif (Normalize cfg) = r) ∧
      ((cfg.ArgoCD = none ∨ ∃ argo, cfg.ArgoCD = some argo ∧ argo.DefaultReceiver = []) →
        (∀ r, IsFirstNamed (Normalize cfg).Receivers (lit "alert-devops") r →
          determineArgocdReceiver toLower notif (Normalize cfg) = r) ∧
        ((∀ x ∈ (Normalize cfg).Receivers, x.Name ≠ lit "alert-devops") →
          determineArgocdReceiver toLower notif (Normalize cfg) =
            { Name := lit "default", Mobiles := [], Mobile := cfg.DefaultReceiver.Mobile,
              Schedule := none, Match := none })) ∧
      (∀ argo, cfg.ArgoCD = some argo → argo.DefaultReceiver ≠ [] →
        (∀ x ∈ (Normalize cfg).Receivers, x.Name ≠ argo.DefaultReceiver) →
          determineArgocdReceiver toLower notif (Normalize cfg) =
            { Name := lit "default", Mobiles := [], Mobile := cfg.DefaultReceiver.Mobile,
              Schedule := none, Match := none }) := by
  have hd := determineArgocdReceiver_of_none toLower notif (Normalize cfg) h1 h2 h3 h4 h5
  rw [Normalize_Receiver] at hd
  have hset : ∀ argo, cfg.ArgoCD = some argo → argo.DefaultReceiver ≠ [] →
      defaultReceiverName (Normalize cfg) = argo.DefaultReceiver := by
    intro argo ha hne
    simp [defaultReceiverName, Normalize_ArgoCD, ha, hne]
  have hunset : (cfg.ArgoCD = none ∨ ∃ argo, cfg.ArgoCD = some argo ∧ argo.DefaultReceiver = []) →
      defaultReceiverName (Normalize cfg) = lit "alert-devops" := by
    rintro (ha | ⟨argo, ha, he⟩)
    · simp [defaultReceiverName, Normalize_ArgoCD, ha]
    · simp [defaultReceiverName, Normalize_ArgoCD, ha, he]
  refine ⟨?_, ?_, ?_⟩
  · intro argo ha hne r hr
    rw [hd, hset argo ha hne, (firstNamed_eq_some_iff _ _ _).mpr hr]; rfl
  · intro hu
    refine ⟨?_, ?_⟩
    · intro r hr
      rw [hd, hunset hu, (firstNamed_eq_some_iff _ _ _).mpr hr]; rfl
    · intro hno
      rw [hd, hunset hu, (firstNamed_eq_none_iff _ _).mpr hno]; rfl
  · intro argo ha hne hno
    rw [hd, hset argo ha hne, (firstNamed_eq_none_iff _ _).mpr hno]; rfl

/-- Witness of C4: `orphanNotification` matches no mapping of
`conflictConfig`, whose deployment mapping sets the default `team-def`. -/
theorem determineArgocdReceiver_fallback_chain_witness :
    fromContext orphanNotification (Normalize conflictConfig) = none ∧
      fromAppMapping orphanNotification (Normalize conflictConfig) = none ∧
      fromAppPrefixMapping orphanNotification (Normalize conflictConfig) = none ∧
      fromProjectMapping strings.asciiToLower orphanNotification (Normalize conflictConfig) =
        none ∧
      fromNamespaceMapping orphanNotification (Normalize conflictConfig) = none ∧
      determineArgocdReceiver strings.asciiToLower orphanNotification (Normalize conflictConfig) =
        normalizedReceiver (lit "team-def") (lit "0906") [lit "0906"] :=
  ⟨by decide, by decide, by decide, by decide, by decide,
    (determineArgocdReceiver_fallback_chain strings.asciiToLower conflictConfig orphanNotification
      (by decide) (by decide) (by decide) (by decide) (by decide)).1 conflictArgo rfl (by decide)
      _ ((firstNamed_eq_some_iff _ _ _).mp (by decide))⟩

theorem lookup_filter_ne {β : Type} (k : GoString) (es : List (GoString × β)) :
    (es.filter (fun e => e.1 != k)).lookup k = none := by
  rw [List.lookup_eq_none_iff]
  intro p hp
  have hne := (List.mem_filter.mp hp).2
  simp only [bne_iff_ne, ne_eq] at hne ⊢
  exact fun e => hne e.symm

theorem contextReceiver_removeContextReceiver (notif : ArgocdNotification) :
    contextReceiver (removeContextReceiver notif) = none := by
  unfold contextReceiver removeContextReceiver mapLookup
  cases notif.Context with
  | none => rfl
  | some es => simp [lookup_filter_ne]

theorem firstMatching_mem {receivers : List Receiver} {entries : List (GoString × GoString)}
    {isMatch : GoString → Bool} {r : Receiver}
    (h : firstMatching receivers entries isMatch = some r) : r ∈ receivers := by
  obtain ⟨e, _, he⟩ := List.exists_of_findSome?_eq_some h
  split at he
  · exact firstNamed_mem he
  · cases he

theorem fromContext_mem {notif : ArgocdNotification} {cfg : Config} {r : Receiver}
    (h : fromContext notif cfg = some r) : r ∈ cfg.Receiver := by
  unfold fromContext at h
  cases hc : contextReceiver notif with
  | none => simp [hc] at h
  | some name => simp only [hc] at h; exact firstNamed_mem h

theorem fromAppMapping_mem {notif : ArgocdNotification} {cfg : Config} {r : Receiver}
    (h : fromAppMapping notif cfg = some r) : r ∈ cfg.Receiver := by
  unfold fromAppMapping at h
  cases ha : cfg.ArgoCD with
  | none => simp [ha] at h
  | some argo =>
    cases hm : argo.AppMapping with
    | none => simp [ha, hm] at h
    | some m =>
      cases hl : m.lookup notif.App.Metadata.Name with
      | none => simp [ha, hm, hl] at h
      | some receiverName => simp only [ha, hm, hl] at h; exact firstNamed_mem h

theorem fromAppPrefixMapping_mem {notif : ArgocdNotification} {cfg : Config} {r : Receiver}
    (h : fromAppPrefixMapping notif cfg = some r) : r ∈ cfg.Receiver := by
  unfold fromAppPrefixMapping at h
  cases ha : cfg.ArgoCD with
  | none => simp [ha] at h
  | some argo =>
    cases hm : argo.AppPrefixMapping with
    | none => simp [ha, hm] at h
    | some m => simp only [ha, hm] at h; exact firstMatching_mem h

theorem fromProjectMapping_mem {toLower : GoString → GoString} {notif : ArgocdNotification}
    {cfg : Config} {r : Receiver}
    (h : fromProjectMapping toLower notif cfg = some r) : r ∈ cfg.Receiver := by
  unfold fromProjectMapping at h
  cases ha : cfg.ArgoCD with
  | none => simp [ha] at h
  | some argo =>
    cases hm : argo.ProjectMapping with
    | none => simp [ha, hm] at h
    | some m =>
      cases hl : m.lookup (toLower notif.App.Spec.Project) with
      | none => simp [ha, hm, hl] at h
      | some receiverName => simp only [ha, hm, hl] at h; exact firstNamed_mem h

theorem fromNamespaceMapping_mem {notif : ArgocdNotification} {cfg : Config} {r : Receiver}
    (h : fromNamespaceMapping notif cfg = some r) : r ∈ cfg.Receiver := by
  unfold fromNamespaceMapping at h
  cases ha : cfg.ArgoCD with
  | none => simp [ha] at h
  | some argo =>
    cases hm : argo.NamespaceMapping with
    | none => simp [ha, hm] at h
    | some m => simp only [ha, hm] at h; exact firstMatching_mem h

/-- The receiver returned is a configured receiver or the receiver of the
last fallback. -/
theorem determineArgocdReceiver_mem_or_fallback (toLower : GoString → GoString)
    (notif : ArgocdNotification) (cfg : Config) :
    determineArgocdReceiver toLower notif cfg ∈ cfg.Receiver ∨
      determineArgocdReceiver toLower notif cfg = lastFallback cfg := by
  unfold determineArgocdReceiver
  cases h1 : fromContext notif cfg with
  | some r => exact Or.inl (fromContext_mem h1)
  | none =>
  cases h2 : fromAppMapping notif cfg with
  | some r => exact Or.inl (fromAppMapping_mem h2)
  | none =>
  cases h3 : fromAppPrefixMapping notif cfg with
  | some r => exact Or.inl (fromAppPrefixMapping_mem h3)
  | none =>
  cases h4 : fromProjectMapping toLower notif cfg with
  | some r => exact Or.inl (fromProjectMapping_mem h4)
  | none =>
  cases h5 : fromNamespaceMapping notif cfg with
  | some r => exact Or.inl (fromNamespaceMapping_mem h5)
  | none =>
  cases h6 : firstNamed cfg.Receiver (defaultReceiverName cfg) with
  | some r => exact Or.inl (firstNamed_mem h6)
  | none => exact Or.inr rfl

/-- C5 (as stated, refuted). The context of `defaultNamedNotification` names
`default`, which no receiver of `plainConfig` is called; the resolver falls
through to the last fallback, and the receiver it returns carries that very
name. -/
theorem determineArgocdReceiver_default_name_collision :
    contextReceiver defaultNamedNotification = some (lit "default") ∧
      (∀ x ∈ (Normalize plainConfig).Receivers, x.Name ≠ lit "default") ∧
      (determineArgocdReceiver strings.asciiToLower defaultNamedNotification
        (Normalize plainConfig)).Name = lit "default" := by
  decide

/-- C5 (amended). Unresolved names fall through: for every normalized
configuration and every notification whose context receiver is not the name
of a configured receiver, `determineArgocdReceiver` returns the receiver it
returns for the notification without the context receiver; that receiver is
either a configured receiver, and then its name is not the unresolved name, or
the receiver of the last fallback, whose name is the literal "default"; so
the returned receiver carries the unresolved name only if that name is
"default". -/
theorem determineArgocdReceiver_unresolved_context (toLower : GoString → GoString)
    (cfg : Config) (notif : ArgocdNotification)
    (h : ∀ name, contextReceiver notif = some name →
      ∀ x ∈ (Normalize cfg).Receivers, x.Name ≠ name) :
    determineArgocdReceiver toLower notif (Normalize cfg) =
        determineArgocdReceiver toLower (removeContextReceiver notif) (Normalize cfg) ∧
      ((determineArgocdReceiver toLower notif (Normalize cfg) ∈ (Normalize cfg).Receivers ∧
          ∀ name, contextReceiver notif = some name →
            (determineArgocdReceiver toLower notif (Normalize cfg)).Name ≠ name) ∨
        determineArgocdReceiver toLower notif (Normalize cfg) =
          { Name := lit "default", Mobiles := [], Mobile := cfg.DefaultReceiver.Mobile,
            Schedule := none, Match := none }) ∧
      (∀ name, contextReceiver notif = some name → name ≠ lit "default" →
        (determineArgocdReceiver toLower notif (Normalize cfg)).Name ≠ name) := by
  have hmem := determineArgocdReceiver_mem_or_fallback toLower notif (Normalize cfg)
  rw [Normalize_Receiver] at hmem
  refine ⟨?_, ?_, ?_⟩
  · have h1 : fromContext notif (Normalize cfg) = none := fromContext_eq_none h
    have h1' : fromContext (removeContextReceiver notif) (Normalize cfg) = none := by
      simp only [fromContext, contextReceiver_removeContextReceiver]
    have h2 : fromAppMapping (removeContextReceiver notif) (Normalize cfg) =
        fromAppMapping notif (Normalize cfg) := rfl
    have h3 : fromAppPrefixMapping (removeContextReceiver notif) (Normalize cfg) =
        fromAppPrefixMapping notif (Normalize cfg) := rfl
    have h4 : fromProjectMapping toLower (removeContextReceiver notif) (Normalize cfg) =
        fromProjectMapping toLower notif (Normalize cfg) := rfl
    have h5 : fromNamespaceMapping (removeContextReceiver notif) (Normalize cfg) =
        fromNamespaceMapping notif (Normalize cfg) := rfl
    simp only [determineArgocdReceiver, h1, h1', h2, h3, h4, h5]
  · rcases hmem with hm | hf
    · exact Or.inl ⟨hm, fun name hname => h name hname _ hm⟩
    · exact Or.inr hf
  · intro name hname hne
    rcases hmem with hm | hf
    · exact h name hname _ hm
    · rw [hf]
      exact fun hc => hne hc.symm

/-- Witness of C5 (amended): the context of `ghostNotification` names `ghost`,
which is not configured; with and without it the exact mapping decides, and
the receiver returned is `team-app`. -/
theorem determineArgocdReceiver_unresolved_context_witness :
    (∀ name, contextReceiver ghostNotification = some name →
        ∀ x ∈ (Normalize conflictConfig).Receivers, x.Name ≠ name) ∧
      contextReceiver ghostNotification = some (lit "ghost") ∧
      determineArgocdReceiver strings.asciiToLower ghostNotification (Normalize conflictConfig) =
        determineArgocdReceiver strings.asciiToLower (removeContextReceiver ghostNotification)
          (Normalize conflictConfig) ∧
      (determineArgocdReceiver strings.asciiToLower ghostNotification
        (Normalize conflictConfig)).Name ≠ lit "ghost" :=
  have hctx : ∀ name, contextReceiver ghostNotification = some name →
      ∀ x ∈ (Normalize conflictConfig).Receivers, x.Name ≠ name := by
    intro name hname
    have hg : contextReceiver ghostNotification = some (lit "ghost") := by decide
    rw [hg] at hname
    cases hname
    exact (firstNamed_eq_none_iff _ _).mp (by decide)
  ⟨hctx, by decide,
    (determineArgocdReceiver_unresolved_context strings.asciiToLower conflictConfig
      ghostNotification hctx).1,
    (determineArgocdReceiver_unresolved_context strings.asciiToLower conflictConfig
      ghostNotification hctx).2.2 (lit "ghost") (by decide) (by decide)⟩

theorem firstMatching_perm {receivers : List Receiver} {l₁ l₂ : List (GoString × GoString)}
    {isMatch : GoString → Bool} (hp : l₁.Perm l₂) (hs : SameTarget receivers l₁ isMatch) :
    firstMatching receivers l₁ isMatch = firstMatching receivers l₂ isMatch := by
  cases h1 : firstMatching receivers l₁ isMatch with
  | none =>
    symm
    unfold firstMatching at h1 ⊢
    rw [List.findSome?_eq_none_iff] at h1 ⊢
    intro e he
    exact h1 e (hp.mem_iff.mpr he)
  | some r =>
    cases h2 : firstMatching receivers l₂ isMatch with
    | none =>
      exfalso
      unfold firstMatching at h1 h2
      rw [List.findSome?_eq_none_iff] at h2
      obtain ⟨e, he, hfe⟩ := List.exists_of_findSome?_eq_some h1
      rw [h2 e (hp.mem_iff.mp he)] at hfe
      cases hfe
    | some r' =>
      unfold firstMatching at h1 h2
      obtain ⟨e, he, hfe⟩ := List.exists_of_findSome?_eq_some h1
      obtain ⟨e', he', hfe'⟩ := List.exists_of_findSome?_eq_some h2
      by_cases hm : isMatch e.1 = true
      · by_cases hm' : isMatch e'.1 = true
        · simp only [hm, if_true] at hfe
          simp only [hm', if_true] at hfe'
          rw [hs e he e' (hp.mem_iff.mpr he') hm hm' r r' hfe hfe']
        · simp [hm'] at hfe'
      · simp [hm] at hfe

/-- C6 (as stated, refuted). The two lists are the two orders in which a
range can visit a prefix mapping with the keys `pay` and `payments`; the
receiver returned for `payments-web` is `team-pfx` under one order and
`team-proj` under the other. -/
theorem determineArgocdReceiver_depends_on_enumeration :
    (overlapPrefixes.map Prod.fst).Nodup ∧
      overlapPrefixes.Perm overlapPrefixes.reverse ∧
      determineArgocdReceiver strings.asciiToLower webNotification
          (withEnumeration (Normalize conflictConfig) conflictArgo overlapPrefixes []) =
        normalizedReceiver (lit "team-pfx") (lit "0903") [lit "0903"] ∧
      determineArgocdReceiver strings.asciiToLower webNotification
          (withEnumeration (Normalize conflictConfig) conflictArgo overlapPrefixes.reverse []) =
        normalizedReceiver (lit "team-proj") (lit "0904") [lit "0904"] ∧
      determineArgocdReceiver strings.asciiToLower webNotification
          (withEnumeration (Normalize conflictConfig) conflictArgo overlapPrefixes []) ≠
        determineArgocdReceiver strings.asciiToLower webNotification
          (withEnumeration (Normalize conflictConfig) conflictArgo overlapPrefixes.reverse []) := by
  refine ⟨by decide, (List.reverse_perm _).symm, by decide, by decide, by decide⟩

/-- C6 (amended). For every configuration and notification the receiver is
the same for any two orders in which the entries of the prefix mapping and of
the namespace mapping are enumerated, provided that all prefix entries that
match the application name and name a configured receiver lead to the same
receiver, and likewise all namespace patterns that occur in the destination
namespace. -/
theorem determineArgocdReceiver_enumeration_independent (toLower : GoString → GoString)
    (notif : ArgocdNotification) (cfg : Config) (argo : ArgocdConfig)
    (p₁ p₂ n₁ n₂ : List (GoString × GoString))
    (hp : p₁.Perm p₂) (hn : n₁.Perm n₂)
    (hsp : SameTarget cfg.Receiver p₁ (fun pfx => strings.HasPrefix notif.App.Metadata.Name pfx))
    (hsn : SameTarget cfg.Receiver n₁
      (fun nsPattern => strings.Contains notif.App.Spec.Destination.Namespace nsPattern)) :
    determineArgocdReceiver toLower notif (withEnumeration cfg argo p₁ n₁) =
      determineArgocdReceiver toLower notif (withEnumeration cfg argo p₂ n₂) := by
  have h1 : fromContext notif (withEnumeration cfg argo p₁ n₁) =
      fromContext notif (withEnumeration cfg argo p₂ n₂) := rfl
  have h2 : fromAppMapping notif (withEnumeration cfg argo p₁ n₁) =
      fromAppMapping notif (withEnumeration cfg argo p₂ n₂) := rfl
  have h3 : fromAppPrefixMapping notif (withEnumeration cfg argo p₁ n₁) =
      fromAppPrefixMapping notif (withEnumeration cfg argo p₂ n₂) := by
    simp only [fromAppPrefixMapping, withEnumeration]
    exact firstMatching_perm hp hsp
  have h4 : fromProjectMapping toLower notif (withEnumeration cfg argo p₁ n₁) =
      fromProjectMapping toLower notif (withEnumeration cfg argo p₂ n₂) := rfl
  have h5 : fromNamespaceMapping notif (withEnumeration cfg argo p₁ n₁) =
      fromNamespaceMapping notif (withEnumeration cfg argo p₂ n₂) := by
    simp only [fromNamespaceMapping, withEnumeration]
    exact firstMatching_perm hn hsn
  have h6 : firstNamed (withEnumeration cfg argo p₁ n₁).Receiver
        (defaultReceiverName (withEnumeration cfg argo p₁ n₁)) =
      firstNamed (withEnumeration cfg argo p₂ n₂).Receiver
        (defaultReceiverName (withEnumeration cfg argo p₂ n₂)) := rfl
  have h7 : lastFallback (withEnumeration cfg argo p₁ n₁) =
      lastFallback (withEnumeration cfg argo p₂ n₂) := rfl
  simp only [determineArgocdReceiver, h1, h2, h3, h4, h5, h6, h7]

theorem sameTarget_of_resolved {receivers : List Receiver}
    {entries : List (GoString × GoString)} {isMatch : GoString → Bool}
    (h : ∀ e ∈ entries, ∀ e' ∈ entries, isMatch e.1 = true → isMatch e'.1 = true →
      firstNamed receivers e.2 = none ∨ firstNamed receivers e'.2 = none ∨
        firstNamed receivers e.2 = firstNamed receivers e'.2) :
    SameTarget receivers entries isMatch := by
  intro e he e' he' hm hm' r r' hr hr'
  rcases h e he e' he' hm hm' with h1 | h1 | h1
  · rw [h1] at hr; cases hr
  · rw [h1] at hr'; cases hr'
  · rw [h1] at hr
    exact Option.some.inj (hr.symm.trans hr')

/-- Witness of C6 (amended): three prefixes of `agreeingPrefixes` match
`payments-web`, two of them name the configured receiver `team-pfx` and one
an unconfigured name; both patterns of `agreeingNamespaces` occur in
`staging`; in the given order and in the reverse order the receiver is
`team-pfx`. -/
theorem determineArgocdReceiver_enumeration_independent_witness :
    agreeingPrefixes.Perm agreeingPrefixes.reverse ∧
      agreeingNamespaces.Perm agreeingNamespaces.reverse ∧
      SameTarget (Normalize conflictConfig).Receiver agreeingPrefixes
        (fun pfx => strings.HasPrefix webNotification.App.Metadata.Name pfx) ∧
      SameTarget (Normalize conflictConfig).Receiver agreeingNamespaces
        (fun nsPattern =>
          strings.Contains webNotification.App.Spec.Destination.Namespace nsPattern) ∧
      determineArgocdReceiver strings.asciiToLower webNotification
          (withEnumeration (Normalize conflictConfig) conflictArgo agreeingPrefixes
            agreeingNamespaces) =
        determineArgocdReceiver strings.asciiToLower webNotification
          (withEnumeration (Normalize conflictConfig) conflictArgo agreeingPrefixes.reverse
            agreeingNamespaces.reverse) ∧
      determineArgocdReceiver strings.asciiToLower webNotification
          (withEnumeration (Normalize conflictConfig) conflictArgo agreeingPrefixes.reverse
            agreeingNamespaces.reverse) =
        normalizedReceiver (lit "team-pfx") (lit "0903") [lit "0903"] ∧
      (agreeingPrefixes.filter
        (fun e => strings.HasPrefix webNotification.App.Metadata.Name e.1)).length = 3 ∧
      (agreeingNamespaces.filter
        (fun e => strings.Contains webNotification.App.Spec.Destination.Namespace e.1)).length
          = 2 :=
  ⟨(List.reverse_perm _).symm, (List.reverse_perm _).symm,
    sameTarget_of_resolved (by decide), sameTarget_of_resolved (by decide),
    determineArgocdReceiver_enumeration_independent strings.asciiToLower webNotification
      (Normalize conflictConfig) conflictArgo agreeingPrefixes agreeingPrefixes.reverse
      agreeingNamespaces agreeingNamespaces.reverse
      (List.reverse_perm _).symm (List.reverse_perm _).symm
      (sameTarget_of_resolved (by decide)) (sameTarget_of_resolved (by decide)),
    by decide, by decide, by decide⟩

/-! ### Truncation -/

/-- C11. Truncation shape: for every string `s` and every limit `n` with
`3 ≤ n` (a Go `int`, so below `2^63`), `truncateString(s, n)` is `s` when
`len(s) ≤ n`, and otherwise the first `n-3` bytes of `s` followed by "...";
in the second case the result ends with the ellipsis, the part before it is a
prefix of `s`, and the result has `n` bytes. -/
theorem truncateString_shape (s : GoString) (n : Int) (h3 : 3 ≤ n) (hint : n < 2 ^ 63) :
    ((s.length : Int) ≤ n → truncateString s n = some s) ∧
      (n < (s.length : Int) →
        truncateString s n = some (s.take (n - 3).toNat ++ lit "...") ∧
          s.take (n - 3).toNat <+: s ∧
          ((s.take (n - 3).toNat ++ lit "...").length : Int) = n) := by
  constructor
  · intro hle
    simp [truncateString, hle]
  · intro hlt
    have hnot : ¬ (s.length : Int) ≤ n := by omega
    have hw : wrapInt64 (n - 3) = n - 3 := by
      unfold wrapInt64
      have h263 : (2 : Int) ^ 63 = 9223372036854775808 := by norm_num
      have h264 : (2 : Int) ^ 64 = 18446744073709551616 := by norm_num
      rw [h263, h264] at *
      omega
    have hb : 0 ≤ n - 3 ∧ n - 3 ≤ (s.length : Int) := by omega
    refine ⟨?_, List.take_prefix _ _, ?_⟩
    · simp [truncateString, hnot, hw, sliceTo, hb]
    · have hl : (lit "...").length = 3 := by decide
      rw [List.length_append, List.length_take, hl]
      omega

/-- Witness of C11: eight bytes and the limit 5. -/
theorem truncateString_shape_witness :
    (3 : Int) ≤ 5 ∧ (5 : Int) < 2 ^ 63 ∧
      truncateString (lit "abcdefgh") 5 = some (lit "ab...") :=
  ⟨by decide, by decide,
    ((truncateString_shape (lit "abcdefgh") 5 (by decide) (by decide)).2 (by decide)).1.trans
      (by decide)⟩

/-! ### The alert message and its receiver -/

set_option maxRecDepth 8000

theorem processAlert_of_fires (receiver : GoString) (alert : Alert) (rest : List Alert)
    (cfg : Config)
    (hfire : alert.Status = lit "resolved" ∨
      (alert.Status = lit "firing" ∧ mapIndex alert.Labels (lit "severity") = lit "critical")) :
    processAlert { Receiver := receiver, Alerts := alert :: rest } cfg =
      some { sendCalls :=
               [(match cfg.Receivers.find? (fun r => r.Name == receiver) with
                  | some r => r.Mobiles
                  | none => cfg.DefaultReceiver.Mobiles,
                 buildAlertMessage receiver alert)]
             response := { Status := 200, Body := lit "Alert processed ✅" } } := by
  have h := (alertFires_iff _ _).mpr hfire
  simp only [processAlert, h]
  cases cfg.Receivers.find? (fun r => r.Name == receiver) <;> rfl

/-- C12 (as stated, refuted). An actionable alert for `alert-d1-lgc-devops`
whose instance label is present with the value `unknown-instance` does not
get the instance template: the code takes that value for a missing label. -/
theorem processAlert_placeholder_instance :
    mapIndex placeholderAlert.Labels (lit "instance") = lit "unknown-instance" ∧
      processAlert { Receiver := lit "alert-d1-lgc-devops", Alerts := [placeholderAlert] }
          legacyConfig =
        some { sendCalls :=
                 [([lit "0911", lit "0912"],
                   lit "[firing] Legacy alert type but mising fields | " ++
                     lit "AlertGroup: unknown-alertgroup | AlertName: CPUHigh | Sum: cpu spike")]
               response := { Status := 200, Body := lit "Alert processed ✅" } } ∧
      buildAlertMessage (lit "alert-d1-lgc-devops") placeholderAlert ≠
        lit "[firing] AlertName: CPUHigh | Instance: unknown-instance | Sum: cpu spike" := by
  decide

/-- C12 (amended). Alert template, instance case: for every actionable alert
whose declared receiver is "alert-d1-lgc-devops" and whose first alert has an
instance label that is neither empty nor the text "unknown-instance",
`processAlert` makes one call, with the message
"[status] AlertName: alertname | Instance: instance | Sum: summary", where
alertname is the label or "unknown-alertname" when the label is empty and
summary is the annotation or, when that is empty, the alertname label;
nothing is assumed about the labels topic, consumergroup, cluster, namespace
and pod. -/
theorem processAlert_instance_template (alert : Alert) (rest : List Alert) (cfg : Config)
    (hfire : alert.Status = lit "resolved" ∨
      (alert.Status = lit "firing" ∧ mapIndex alert.Labels (lit "severity") = lit "critical"))
    (hpresent : mapIndex alert.Labels (lit "instance") ≠ [])
    (hvalue : mapIndex alert.Labels (lit "instance") ≠ lit "unknown-instance") :
    ∃ mobiles,
      processAlert { Receiver := lit "alert-d1-lgc-devops", Alerts := alert :: rest } cfg =
        some { sendCalls :=
                 [(mobiles,
                   lit "[" ++ alert.Status ++ lit "] AlertName: " ++
                     (if mapIndex alert.Labels (lit "alertname") = [] then lit "unknown-alertname"
                      else mapIndex alert.Labels (lit "alertname")) ++
                     lit " | Instance: " ++ mapIndex alert.Labels (lit "instance") ++
                     lit " | Sum: " ++
                     (if mapIndex alert.Annotations (lit "summary") = []
                      then mapIndex alert.Labels (lit "alertname")
                      else mapIndex alert.Annotations (lit "summary")))]
               response := { Status := 200, Body := lit "Alert processed ✅" } } := by
  refine ⟨(match cfg.Receivers.find? (fun r => r.Name == lit "alert-d1-lgc-devops") with
    | some r => r.Mobiles
    | none => cfg.DefaultReceiver.Mobiles), ?_⟩
  rw [processAlert_of_fires _ _ _ _ hfire]
  simp only [buildAlertMessage, defaultIfEmpty, hpresent, hvalue, if_true, if_false, ne_eq,
    not_false_eq_true]

/-- Witness of C12 (amended): the scenario of the specification. -/
theorem processAlert_instance_template_witness :
    (cpuAlert.Status = lit "resolved" ∨
        (cpuAlert.Status = lit "firing" ∧
          mapIndex cpuAlert.Labels (lit "severity") = lit "critical")) ∧
      mapIndex cpuAlert.Labels (lit "instance") ≠ [] ∧
      mapIndex cpuAlert.Labels (lit "instance") ≠ lit "unknown-instance" ∧
      (∃ mobiles,
        processAlert { Receiver := lit "alert-d1-lgc-devops", Alerts := [cpuAlert] }
            legacyConfig =
          some { sendCalls :=
                   [(mobiles,
                     lit "[" ++ cpuAlert.Status ++ lit "] AlertName: " ++
                       (if mapIndex cpuAlert.Labels (lit "alertname") = []
                        then lit "unknown-alertname"
                        else mapIndex cpuAlert.Labels (lit "alertname")) ++
                       lit " | Instance: " ++ mapIndex cpuAlert.Labels (lit "instance") ++
                       lit " | Sum: " ++
                       (if mapIndex cpuAlert.Annotations (lit "summary") = []
                        then mapIndex cpuAlert.Labels (lit "alertname")
                        else mapIndex cpuAlert.Annotations (lit "summary")))]
                 response := { Status := 200, Body := lit "Alert processed ✅" } }) ∧
      buildAlertMessage (lit "alert-d1-lgc-devops") cpuAlert =
        lit "[firing] AlertName: CPUHigh | Instance: host-1 | Sum: cpu spike" :=
  ⟨by decide, by decide, by decide,
    processAlert_instance_template cpuAlert [] legacyConfig (by decide) (by decide) (by decide),
    by decide⟩

/-- C13 (the code at the failing input). For a firing critical alert for
`alert-d1-lgc-devops` without the labels instance, topic and consumergroup
the message reads "mising fields", not "missing fields". -/
theorem processAlert_mising_fields :
    processAlert { Receiver := lit "alert-d1-lgc-devops", Alerts := [bareAlert] } legacyConfig =
        some { sendCalls :=
                 [([lit "0911", lit "0912"],
                   lit "[firing] Legacy alert type but mising fields | " ++
                     lit "AlertGroup: unknown-alertgroup | AlertName: DiskFull | Sum: disk full")]
               response := { Status := 200, Body := lit "Alert processed ✅" } } ∧
      buildAlertMessage (lit "alert-d1-lgc-devops") bareAlert ≠
        lit "[firing] Legacy alert type but missing fields | " ++
          lit "AlertGroup: unknown-alertgroup | AlertName: DiskFull | Sum: disk full" := by
  decide

/-- C14. Alert-path receiver resolution: for every configuration and
actionable alert `processAlert` makes exactly one call of
`SendToMultipleMobiles`, with the built message; its mobile list is that of
the first configured receiver whose name equals the declared receiver name
when a configured receiver has that name, and that of the default receiver
when none has; exactly one of these two cases applies. -/
theorem processAlert_receiver (receiver : GoString) (alert : Alert) (rest : List Alert)
    (cfg : Config)
    (hfire : alert.Status = lit "resolved" ∨
      (alert.Status = lit "firing" ∧ mapIndex alert.Labels (lit "severity") = lit "critical")) :
    ∃ out mobiles,
      processAlert { Receiver := receiver, Alerts := alert :: rest } cfg = some out ∧
      out.sendCalls = [(mobiles, buildAlertMessage receiver alert)] ∧
      (∀ r, IsFirstNamed cfg.Receivers receiver r → mobiles = r.Mobiles) ∧
      ((∀ x ∈ cfg.Receivers, x.Name ≠ receiver) → mobiles = cfg.DefaultReceiver.Mobiles) ∧
      ((∃ r, IsFirstNamed cfg.Receivers receiver r) ↔ (∃ x ∈ cfg.Receivers, x.Name = receiver)) ∧
      ((∃ x ∈ cfg.Receivers, x.Name = receiver) ∨ (∀ x ∈ cfg.Receivers, x.Name ≠ receiver)) ∧
      ¬ ((∃ x ∈ cfg.Receivers, x.Name = receiver) ∧ (∀ x ∈ cfg.Receivers, x.Name ≠ receiver)) := by
  refine ⟨_, _, processAlert_of_fires receiver alert rest cfg hfire, rfl, ?_, ?_, ?_, ?_, ?_⟩
  · intro r hr
    have hf : cfg.Receivers.find? (fun r => r.Name == receiver) = some r :=
      (firstNamed_eq_some_iff _ _ _).mpr hr
    rw [hf]
  · intro hno
    have hf : cfg.Receivers.find? (fun r => r.Name == receiver) = none :=
      (firstNamed_eq_none_iff _ _).mpr hno
    rw [hf]
  · constructor
    · rintro ⟨r, hr⟩
      exact ⟨r, firstNamed_mem ((firstNamed_eq_some_iff _ _ _).mpr hr),
        (by obtain ⟨_, _, _, hn, _⟩ := hr; exact hn)⟩
    · intro hx
      obtain ⟨r, hr⟩ := exists_firstNamed hx
      exact ⟨r, (firstNamed_eq_some_iff _ _ _).mp hr⟩
  · by_cases hx : ∃ x ∈ cfg.Receivers, x.Name = receiver
    · exact Or.inl hx
    · right
      intro x hmem hname
      exact hx ⟨x, hmem, hname⟩
  · rintro ⟨⟨x, hmem, hname⟩, hno⟩
    exact hno x hmem hname

/-- Witness of C14: the declared receiver `alert-d1-lgc-devops` is the second
receiver of `legacyConfig`. -/
theorem processAlert_receiver_witness :
    (cpuAlert.Status = lit "resolved" ∨
        (cpuAlert.Status = lit "firing" ∧
          mapIndex cpuAlert.Labels (lit "severity") = lit "critical")) ∧
      (∃ out mobiles,
        processAlert { Receiver := lit "alert-d1-lgc-devops", Alerts := [cpuAlert] }
            legacyConfig = some out ∧
        out.sendCalls = [(mobiles, buildAlertMessage (lit "alert-d1-lgc-devops") cpuAlert)] ∧
        mobiles = [lit "0911", lit "0912"]) := by
  refine ⟨by decide, ?_⟩
  obtain ⟨out, mobiles, hout, hcalls, hfirst, _⟩ :=
    processAlert_receiver (lit "alert-d1-lgc-devops") cpuAlert [] legacyConfig (by decide)
  refine ⟨out, mobiles, hout, hcalls, ?_⟩
  exact hfirst (normalizedReceiver (lit "alert-d1-lgc-devops") (lit "0911,0912")
    [lit "0911", lit "0912"]) ((firstNamed_eq_some_iff _ _ _).mp (by decide))

/-! ### Validation of alert payloads -/

/-- C15. Alert-path validation: for a request whose body was read and
decoded, `HandleAlert` passes the payload to `processAlert` (and answers 200)
if and only if the alert list is non-empty and the first alert has a
non-empty status and a non-empty severity label; every other payload gets
the response 400 "invalid alert format" with no call of the forwarder; the
alerts after the first do not change the outcome. -/
theorem HandleAlert_validation (cfg : Config) (receiver : GoString) :
    HandleAlert cfg { readError := false, parsed := some { Receiver := receiver, Alerts := [] } } =
        some invalidAlertFormat ∧
      (∀ (first : Alert) (rest : List Alert),
        ((first.Status ≠ [] ∧ mapIndex first.Labels (lit "severity") ≠ []) →
          HandleAlert cfg
              { readError := false
                parsed := some { Receiver := receiver, Alerts := first :: rest } } =
            processAlert { Receiver := receiver, Alerts := first :: rest } cfg ∧
          ∃ out, processAlert { Receiver := receiver, Alerts := first :: rest } cfg = some out ∧
            out.response.Status = 200) ∧
        (¬ (first.Status ≠ [] ∧ mapIndex first.Labels (lit "severity") ≠ []) →
          HandleAlert cfg
              { readError := false
                parsed := some { Receiver := receiver, Alerts := first :: rest } } =
            some invalidAlertFormat) ∧
        (∀ rest' : List Alert,
          HandleAlert cfg
              { readError := false
                parsed := some { Receiver := receiver, Alerts := first :: rest } } =
            HandleAlert cfg
              { readError := false
                parsed := some { Receiver := receiver, Alerts := first :: rest' } })) ∧
      invalidAlertFormat.sendCalls = [] ∧ invalidAlertFormat.response.Status = 400 := by
  refine ⟨rfl, ?_, rfl, rfl⟩
  intro first rest
  refine ⟨?_, ?_, ?_⟩
  · rintro ⟨hs, hv⟩
    refine ⟨by simp [HandleAlert, hs, hv], ?_⟩
    by_cases hf : alertFires first.Status (mapIndex first.Labels (lit "severity")) = true
    · cases hfind : cfg.Receivers.find? (fun r => r.Name == receiver) with
      | none => exact ⟨_, by simp only [processAlert, hf, hfind]; rfl, rfl⟩
      | some r => exact ⟨_, by simp only [processAlert, hf, hfind]; rfl, rfl⟩
    · exact ⟨_, by simp only [processAlert, hf]; rfl, rfl⟩
  · intro hnot
    have hor : first.Status = [] ∨ mapIndex first.Labels (lit "severity") = [] := by
      by_cases hs : first.Status = []
      · exact Or.inl hs
      · right
        by_contra hv
        exact hnot ⟨hs, hv⟩
    simp [HandleAlert, hor]
  · intro rest'
    by_cases hor : first.Status = [] ∨ mapIndex first.Labels (lit "severity") = []
    · simp [HandleAlert, hor]
    · simp only [HandleAlert, hor, if_false, Bool.false_eq_true]
      rfl

/-! ### Splitting, trimming and `parseMobiles` -/

theorem SplitByte_ne_nil (sep : UInt8) (s : GoString) : strings.SplitByte sep s ≠ [] := by
  induction s with
  | nil => simp [strings.SplitByte]
  | cons c cs ih =>
    unfold strings.SplitByte
    split
    · simp
    · split <;> simp

theorem SplitByte_no_sep (sep : UInt8) (s : GoString) :
    ∀ f ∈ strings.SplitByte sep s, sep ∉ f := by
  induction s with
  | nil => simp [strings.SplitByte]
  | cons c cs ih =>
    intro f hf
    unfold strings.SplitByte at hf
    split at hf
    · rcases List.mem_cons.mp hf with h | h
      · subst h; simp
      · exact ih f h
    · rename_i hc
      split at hf
      · rename_i hnil
        exact absurd hnil (SplitByte_ne_nil sep cs)
      · rename_i g gs hsplit
        rw [hsplit] at ih
        rcases List.mem_cons.mp hf with h | h
        · subst h
          intro hmem
          rcases List.mem_cons.mp hmem with h1 | h1
          · exact hc h1.symm
          · exact ih g (List.mem_cons_self _ _) h1
        · exact ih f (List.mem_cons_of_mem _ h)

theorem SplitByte_append (sep : UInt8) (a rest : GoString) (ha : sep ∉ a) :
    strings.SplitByte sep (a ++ rest) =
      match strings.SplitByte sep rest with
      | [] => [a]
      | f :: fs => (a ++ f) :: fs := by
  induction a with
  | nil =>
    cases h : strings.SplitByte sep rest with
    | nil => exact absurd h (SplitByte_ne_nil sep rest)
    | cons f fs => simp [h]
  | cons c cs ih =>
    have hc : c ≠ sep := fun h => ha (h ▸ List.mem_cons_self _ _)
    have hcs : sep ∉ cs := fun h => ha (List.mem_cons_of_mem _ h)
    have ih' := ih hcs
    cases h : strings.SplitByte sep rest with
    | nil => exact absurd h (SplitByte_ne_nil sep rest)
    | cons f fs =>
      rw [h] at ih'
      simp only [List.cons_append, strings.SplitByte, hc, if_false]
      have happ : cs.append rest = cs ++ rest := rfl
      rw [happ, ih']

theorem SplitByte_append_sep (sep : UInt8) (a rest : GoString) (ha : sep ∉ a) :
    strings.SplitByte sep (a ++ sep :: rest) = a :: strings.SplitByte sep rest := by
  rw [SplitByte_append sep a (sep :: rest) ha]
  simp [strings.SplitByte]

theorem SplitByte_of_not_mem (sep : UInt8) (a : GoString) (ha : sep ∉ a) :
    strings.SplitByte sep a = [a] := by
  have h := SplitByte_append sep a [] ha
  simpa [strings.SplitByte] using h

theorem SplitByte_Join (sep : UInt8) (l : List GoString) (hne : l ≠ [])
    (hl : ∀ f ∈ l, sep ∉ f) : strings.SplitByte sep (strings.Join l [sep]) = l := by
  induction l with
  | nil => exact absurd rfl hne
  | cons a t ih =>
    cases t with
    | nil => simpa [strings.Join] using SplitByte_of_not_mem sep a (hl a (List.mem_cons_self _ _))
    | cons b t' =>
      have hrec := ih (by simp) (fun f hf => hl f (List.mem_cons_of_mem _ hf))
      simp only [strings.Join, List.append_assoc, List.singleton_append]
      rw [SplitByte_append_sep sep a _ (hl a (List.mem_cons_self _ _)), hrec]

theorem dropSpace_eq_none_iff (encs : List GoString) (s : GoString) :
    strings.dropSpace encs s = none ↔ ∀ e ∈ encs, ¬ e <+: s := by
  unfold strings.dropSpace
  rw [List.findSome?_eq_none_iff]
  constructor
  · intro h e he hp
    have := h e he
    simp [List.isPrefixOf_iff_prefix.mpr hp] at this
  · intro h e he
    have hn : ¬ (e.isPrefixOf s = true) := fun hp => h e he (List.isPrefixOf_iff_prefix.mp hp)
    simp [hn]

theorem dropSpace_eq_some {encs : List GoString} {s r : GoString}
    (h : strings.dropSpace encs s = some r) :
    ∃ e ∈ encs, e <+: s ∧ r = s.drop e.length := by
  unfold strings.dropSpace at h
  obtain ⟨e, he, hfe⟩ := List.exists_of_findSome?_eq_some h
  by_cases hp : e.isPrefixOf s = true
  · simp only [hp, if_true, Option.some.injEq] at hfe
    exact ⟨e, he, List.isPrefixOf_iff_prefix.mp hp, hfe.symm⟩
  · simp [hp] at hfe

theorem trimLeftAux_of_none (encs : List GoString) (fuel : Nat) (s : GoString)
    (h : strings.dropSpace encs s = none) : strings.trimLeftAux encs fuel s = s := by
  cases fuel with
  | zero => rfl
  | succ n => simp [strings.trimLeftAux, h]

theorem trimLeftAux_suffix (encs : List GoString) (fuel : Nat) (s : GoString) :
    strings.trimLeftAux encs fuel s <:+ s := by
  induction fuel generalizing s with
  | zero => exact List.suffix_refl s
  | succ n ih =>
    unfold strings.trimLeftAux
    cases h : strings.dropSpace encs s with
    | none => exact List.suffix_refl s
    | some r =>
      obtain ⟨e, _, _, hr⟩ := dropSpace_eq_some h
      simp only
      exact (ih r).trans (hr ▸ List.drop_suffix _ _)

theorem trimLeftAux_done (encs : List GoString) (hencs : ∀ e ∈ encs, e ≠ [])
    (fuel : Nat) (s : GoString) (hfuel : s.length ≤ fuel) :
    strings.dropSpace encs (strings.trimLeftAux encs fuel s) = none := by
  induction fuel generalizing s with
  | zero =>
    have hs : s = [] := List.length_eq_zero.mp (Nat.le_zero.mp hfuel)
    subst hs
    rw [strings.trimLeftAux, dropSpace_eq_none_iff]
    intro e he hp
    exact hencs e he (List.prefix_nil.mp hp)
  | succ n ih =>
    unfold strings.trimLeftAux
    cases h : strings.dropSpace encs s with
    | none => simpa using h
    | some r =>
      obtain ⟨e, he, hp, hr⟩ := dropSpace_eq_some h
      simp only
      apply ih
      have hlen : 0 < e.length := List.length_pos.mpr (hencs e he)
      have hle : e.length ≤ s.length := hp.length_le
      rw [hr, List.length_drop]
      omega

theorem spaceEncodings_ne_nil : ∀ e ∈ strings.spaceEncodings, e ≠ [] := by decide

theorem spaceEncodings_reverse_ne_nil :
    ∀ e ∈ strings.spaceEncodings.map List.reverse, e ≠ [] := by decide

theorem spaceEncodings_no_comma : ∀ e ∈ strings.spaceEncodings, (44 : UInt8) ∉ e := by decide

/-- The string `TrimSpace s` is a block of `s` that neither starts nor ends
with the encoding of a white-space code point. -/
theorem TrimSpace_spec (s : GoString) :
    strings.TrimSpace s <:+: s ∧
      (∀ e ∈ strings.spaceEncodings, ¬ e <+: strings.TrimSpace s) ∧
      (∀ e ∈ strings.spaceEncodings, ¬ e <:+ strings.TrimSpace s) := by
  have hleft : strings.dropSpace strings.spaceEncodings (strings.TrimLeftSpace s) = none :=
    trimLeftAux_done _ spaceEncodings_ne_nil _ _ (Nat.le_refl _)
  have hsuf : strings.TrimLeftSpace s <:+ s := trimLeftAux_suffix _ _ _
  have hrev : strings.dropSpace (strings.spaceEncodings.map List.reverse)
      (strings.TrimSpace s).reverse = none := by
    unfold strings.TrimSpace strings.TrimRightSpace
    rw [List.reverse_reverse]
    exact trimLeftAux_done _ spaceEncodings_reverse_ne_nil _ _ (by simp)
  have hpre : strings.TrimSpace s <+: strings.TrimLeftSpace s := by
    unfold strings.TrimSpace strings.TrimRightSpace
    have h := trimLeftAux_suffix (strings.spaceEncodings.map List.reverse)
      (strings.TrimLeftSpace s).length (strings.TrimLeftSpace s).reverse
    have h' := List.reverse_prefix.mpr h
    rwa [List.reverse_reverse] at h'
  refine ⟨?_, ?_, ?_⟩
  · exact hpre.isInfix.trans hsuf.isInfix
  · intro e he hp
    exact (dropSpace_eq_none_iff _ _).mp hleft e he (hp.trans hpre)
  · intro e he hp
    refine (dropSpace_eq_none_iff _ _).mp hrev e.reverse (List.mem_map_of_mem _ he) ?_
    exact List.reverse_prefix.mpr hp

/-- On a string without leading and trailing white space `TrimSpace` is the
identity. -/
theorem TrimSpace_of_trimmed (t : GoString)
    (hlead : ∀ e ∈ strings.spaceEncodings, ¬ e <+: t)
    (htrail : ∀ e ∈ strings.spaceEncodings, ¬ e <:+ t) : strings.TrimSpace t = t := by
  have h1 : strings.TrimLeftSpace t = t :=
    trimLeftAux_of_none _ _ _ ((dropSpace_eq_none_iff _ _).mpr hlead)
  have h2 : strings.dropSpace (strings.spaceEncodings.map List.reverse) t.reverse = none := by
    rw [dropSpace_eq_none_iff]
    intro e he hp
    obtain ⟨e0, he0, rfl⟩ := List.mem_map.mp he
    exact htrail e0 he0 (List.reverse_prefix.mp hp)
  unfold strings.TrimSpace strings.TrimRightSpace
  rw [h1, trimLeftAux_of_none _ _ _ h2, List.reverse_reverse]

theorem parseMobiles_foldl (acc : List GoString) (parts : List GoString) :
    parts.foldl
        (fun mobiles p =>
          let trimmed := strings.TrimSpace p
          if trimmed ≠ [] then mobiles ++ [trimmed] else mobiles)
        acc =
      acc ++ (parts.map strings.TrimSpace).filter (fun t => decide (t ≠ [])) := by
  induction parts generalizing acc with
  | nil => simp
  | cons p ps ih =>
    simp only [List.foldl_cons, List.map_cons]
    rw [ih]
    by_cases h : strings.TrimSpace p ≠ []
    · simp [h, List.filter_cons]
    · simp [h, List.filter_cons]

theorem parseMobiles_eq (s : GoString) :
    parseMobiles s =
      ((strings.SplitByte 44 s).map strings.TrimSpace).filter (fun t => decide (t ≠ [])) := by
  unfold parseMobiles
  simp only [parseMobiles_foldl, List.nil_append]

/-- Every element of `parseMobiles s` is non-empty, has no comma and neither
starts nor ends with white space. -/
theorem parseMobiles_mem (s m : GoString) (hm : m ∈ parseMobiles s) :
    m ≠ [] ∧ (44 : UInt8) ∉ m ∧
      (∀ e ∈ strings.spaceEncodings, ¬ e <+: m) ∧
      (∀ e ∈ strings.spaceEncodings, ¬ e <:+ m) := by
  rw [parseMobiles_eq] at hm
  obtain ⟨hmem, hne⟩ := List.mem_filter.mp hm
  obtain ⟨p, hp, rfl⟩ := List.mem_map.mp hmem
  obtain ⟨hblock, hlead, htrail⟩ := TrimSpace_spec p
  refine ⟨by simpa using hne, ?_, hlead, htrail⟩
  intro hc
  exact SplitByte_no_sep 44 s p hp (hblock.subset hc)

theorem lit_comma : lit "," = [44] := by decide

theorem parseMobiles_nil : parseMobiles [] = [] := by decide

/-- C16. Mobile parsing is idempotent under re-joining: for every raw mobile
string `s`, parsing the comma-join of `parseMobiles(s)` gives `parseMobiles(s)`
again, the same elements in the same order. -/
theorem parseMobiles_rejoin (s : GoString) :
    parseMobiles (strings.Join (parseMobiles s) (lit ",")) = parseMobiles s := by
  rw [lit_comma]
  by_cases hnil : parseMobiles s = []
  · rw [hnil]
    exact parseMobiles_nil
  · have hsplit : strings.SplitByte 44 (strings.Join (parseMobiles s) [44]) = parseMobiles s :=
      SplitByte_Join 44 _ hnil (fun f hf => (parseMobiles_mem s f hf).2.1)
    rw [parseMobiles_eq (strings.Join (parseMobiles s) [44]), hsplit]
    have hmap : (parseMobiles s).map strings.TrimSpace = parseMobiles s := by
      conv_rhs => rw [← List.map_id (parseMobiles s)]
      apply List.map_congr_left
      intro m hm
      obtain ⟨_, _, hlead, htrail⟩ := parseMobiles_mem s m hm
      simpa using TrimSpace_of_trimmed m hlead htrail
    rw [hmap, List.filter_eq_self]
    intro m hm
    simpa using (parseMobiles_mem s m hm).1

theorem spaceEncodings_isPrefixOf :
    ∀ e ∈ strings.spaceEncodings, ∀ e' ∈ strings.spaceEncodings,
      e.isPrefixOf e' = true → e = e' := by
  decide

theorem dropSpace_append (e rest : GoString) (he : e ∈ strings.spaceEncodings) :
    strings.dropSpace strings.spaceEncodings (e ++ rest) = some rest := by
  cases h : strings.dropSpace strings.spaceEncodings (e ++ rest) with
  | none =>
    exact absurd (List.prefix_append e rest) ((dropSpace_eq_none_iff _ _).mp h e he)
  | some r =>
    obtain ⟨e', he', hp, hr⟩ := dropSpace_eq_some h
    have hcmp : e' <+: e ∨ e <+: e' :=
      List.prefix_or_prefix_of_prefix hp (List.prefix_append e rest)
    have heq : e' = e := by
      rcases hcmp with h1 | h1
      · exact spaceEncodings_isPrefixOf e' he' e he (List.isPrefixOf_iff_prefix.mpr h1)
      · exact (spaceEncodings_isPrefixOf e he e' he' (List.isPrefixOf_iff_prefix.mpr h1)).symm
    rw [hr, heq, List.drop_left]

theorem trimLeftAux_join (es : List GoString) (hes : ∀ e ∈ es, e ∈ strings.spaceEncodings)
    (fuel : Nat) (hfuel : es.length ≤ fuel) :
    strings.trimLeftAux strings.spaceEncodings fuel es.flatten = [] := by
  induction es generalizing fuel with
  | nil =>
    have hn : strings.dropSpace strings.spaceEncodings [] = none := by decide
    simpa using trimLeftAux_of_none _ fuel [] hn
  | cons e es ih =>
    cases fuel with
    | zero => simp at hfuel
    | succ n =>
      simp only [List.flatten_cons, strings.trimLeftAux,
        dropSpace_append e es.flatten (hes e (List.mem_cons_self _ _))]
      exact ih (fun x hx => hes x (List.mem_cons_of_mem _ hx)) n (by simpa using hfuel)

theorem length_le_join (es : List GoString) (hes : ∀ e ∈ es, e ∈ strings.spaceEncodings) :
    es.length ≤ es.flatten.length := by
  induction es with
  | nil => simp
  | cons e es ih =>
    have hpos : 0 < e.length :=
      List.length_pos.mpr (spaceEncodings_ne_nil e (hes e (List.mem_cons_self _ _)))
    have := ih (fun x hx => hes x (List.mem_cons_of_mem _ hx))
    simp only [List.flatten_cons, List.length_cons, List.length_append]
    omega

/-- A string made of white-space code points only is trimmed to `""`. -/
theorem TrimSpace_join (es : List GoString) (hes : ∀ e ∈ es, e ∈ strings.spaceEncodings) :
    strings.TrimSpace es.flatten = [] := by
  have h : strings.TrimLeftSpace es.flatten = [] :=
    trimLeftAux_join es hes _ (length_le_join es hes)
  unfold strings.TrimSpace
  rw [h]
  decide

theorem SplitByte_fields_of_blank (pieces : List GoString)
    (hp : ∀ p ∈ pieces, p = [44] ∨ p ∈ strings.spaceEncodings) :
    ∀ f ∈ strings.SplitByte 44 pieces.flatten,
      ∃ es : List GoString, (∀ e ∈ es, e ∈ strings.spaceEncodings) ∧ f = es.flatten := by
  induction pieces with
  | nil =>
    intro f hf
    simp only [List.flatten_nil, strings.SplitByte, List.mem_singleton] at hf
    exact ⟨[], by simp, by simp [hf]⟩
  | cons p ps ih =>
    have ih' := ih (fun x hx => hp x (List.mem_cons_of_mem _ hx))
    intro f hf
    rw [List.flatten_cons] at hf
    rcases hp p (List.mem_cons_self _ _) with hc | hs
    · subst hc
      simp only [List.singleton_append, strings.SplitByte, if_true, List.mem_cons] at hf
      rcases hf with h | h
      · exact ⟨[], by simp, by simp [h]⟩
      · exact ih' f h
    · rw [SplitByte_append 44 p ps.flatten (spaceEncodings_no_comma p hs)] at hf
      cases hsplit : strings.SplitByte 44 ps.flatten with
      | nil => exact absurd hsplit (SplitByte_ne_nil _ _)
      | cons g gs =>
        rw [hsplit] at hf ih'
        rcases List.mem_cons.mp hf with h | h
        · obtain ⟨es, hes, hg⟩ := ih' g (List.mem_cons_self _ _)
          refine ⟨p :: es, ?_, by simp [h, hg]⟩
          intro e he
          rcases List.mem_cons.mp he with h1 | h1
          · exact h1 ▸ hs
          · exact hes e h1
        · exact ih' f (List.mem_cons_of_mem _ h)

/-- C17. Mobile parsing normal form: for every raw mobile string `s`,
`parseMobiles(s)` is the list, in the original order, of the trimmed
comma-separated fields of `s` that are non-empty after trimming; every
element is non-empty, contains no comma, and neither starts nor ends with a
white-space code point; the result is empty when `s` is empty and when `s`
is made of commas and white-space code points only. -/
theorem parseMobiles_normal_form (s : GoString) :
    parseMobiles s =
        ((strings.SplitByte 44 s).map strings.TrimSpace).filter (fun t => decide (t ≠ [])) ∧
      (∀ m ∈ parseMobiles s,
        m ≠ [] ∧ (44 : UInt8) ∉ m ∧
          (∀ e ∈ strings.spaceEncodings, ¬ e <+: m) ∧
          (∀ e ∈ strings.spaceEncodings, ¬ e <:+ m)) ∧
      (s = [] → parseMobiles s = []) ∧
      ((∃ pieces : List GoString,
          (∀ p ∈ pieces, p = lit "," ∨ p ∈ strings.spaceEncodings) ∧ s = pieces.flatten) →
        parseMobiles s = []) := by
  refine ⟨parseMobiles_eq s, fun m hm => parseMobiles_mem s m hm, ?_, ?_⟩
  · intro hs
    rw [hs]
    exact parseMobiles_nil
  · rintro ⟨pieces, hp, rfl⟩
    rw [lit_comma] at hp
    rw [parseMobiles_eq, List.filter_eq_nil_iff]
    intro t ht
    obtain ⟨f, hf, rfl⟩ := List.mem_map.mp ht
    obtain ⟨es, hes, rfl⟩ := SplitByte_fields_of_blank pieces hp f hf
    simp [TrimSpace_join es hes]

/-! ### The directory-wide mobile set -/

theorem foldl_append_singleton (l acc : List GoString) :
    l.foldl (fun mobiles p => mobiles ++ [p]) acc = acc ++ l := by
  induction l generalizing acc with
  | nil => simp
  | cons a t ih => simp [ih]

theorem foldl_setInsert (l keys : List GoString) (hk : keys.Nodup) :
    (l.foldl setInsert keys).Nodup ∧
      ∀ m, m ∈ l.foldl setInsert keys ↔ m ∈ keys ∨ m ∈ l := by
  induction l generalizing keys with
  | nil => simp [hk]
  | cons a t ih =>
    have hins : (setInsert keys a).Nodup ∧ ∀ m, m ∈ setInsert keys a ↔ m ∈ keys ∨ m = a := by
      unfold setInsert
      by_cases ha : a ∈ keys
      · simp only [ha, if_true]
        refine ⟨hk, fun m => ⟨Or.inl, ?_⟩⟩
        rintro (h | h)
        · exact h
        · exact h ▸ ha
      · simp only [ha, if_false]
        refine ⟨?_, fun m => by simp⟩
        rw [List.nodup_append]
        refine ⟨hk, List.nodup_singleton a, ?_⟩
        intro x hx hx'
        rw [List.mem_singleton] at hx'
        exact ha (hx' ▸ hx)
    obtain ⟨hn, hm⟩ := ih (setInsert keys a) hins.1
    refine ⟨hn, fun m => ?_⟩
    rw [List.foldl_cons, hm, hins.2, List.mem_cons]
    tauto

theorem foldl_receivers (rs : List Receiver) (keys : List GoString) (hk : keys.Nodup) :
    (rs.foldl (fun keys r => r.Mobiles.foldl setInsert keys) keys).Nodup ∧
      ∀ m, m ∈ rs.foldl (fun keys r => r.Mobiles.foldl setInsert keys) keys ↔
        m ∈ keys ∨ ∃ r ∈ rs, m ∈ r.Mobiles := by
  induction rs generalizing keys with
  | nil => simp [hk]
  | cons r t ih =>
    obtain ⟨h1, h2⟩ := foldl_setInsert r.Mobiles keys hk
    obtain ⟨hn, hm⟩ := ih (r.Mobiles.foldl setInsert keys) h1
    refine ⟨hn, fun m => ?_⟩
    rw [List.foldl_cons, hm, h2]
    constructor
    · rintro ((h | h) | ⟨x, hx, hmx⟩)
      · exact Or.inl h
      · exact Or.inr ⟨r, List.mem_cons_self _ _, h⟩
      · exact Or.inr ⟨x, List.mem_cons_of_mem _ hx, hmx⟩
    · rintro (h | ⟨x, hx, hmx⟩)
      · exact Or.inl (Or.inl h)
      · rcases List.mem_cons.mp hx with hx' | hx'
        · exact Or.inl (Or.inr (hx' ▸ hmx))
        · exact Or.inr ⟨x, hx', hmx⟩

/-- C18. Directory-wide mobile set: for every normalized configuration and
every order in which the runtime visits the keys of the map, `AllMobiles`
returns a list without duplicates whose elements are exactly the numbers in
the parsed mobile list of some receiver or of the default receiver. -/
theorem AllMobiles_nodup_union (rangeOrder : List GoString → List GoString)
    (horder : ∀ keys, (rangeOrder keys).Perm keys) (cfg : Config) :
    (AllMobiles rangeOrder (Normalize cfg)).Nodup ∧
      ∀ m, m ∈ AllMobiles rangeOrder (Normalize cfg) ↔
        (∃ r ∈ cfg.Receivers, m ∈ parseMobiles r.Mobile) ∨
          m ∈ parseMobiles cfg.DefaultReceiver.Mobile := by
  obtain ⟨h1, h2⟩ := foldl_receivers (Normalize cfg).Receivers [] List.nodup_nil
  obtain ⟨h3, h4⟩ := foldl_setInsert (Normalize cfg).DefaultReceiver.Mobiles _ h1
  have hall : AllMobiles rangeOrder (Normalize cfg) =
      rangeOrder ((Normalize cfg).DefaultReceiver.Mobiles.foldl setInsert
        ((Normalize cfg).Receivers.foldl (fun keys r => r.Mobiles.foldl setInsert keys) [])) := by
    simp only [AllMobiles, foldl_append_singleton, List.nil_append]
  rw [hall]
  refine ⟨(horder _).nodup_iff.mpr h3, fun m => ?_⟩
  rw [(horder _).mem_iff, h4, h2]
  have hrs : (∃ r ∈ (Normalize cfg).Receivers, m ∈ r.Mobiles) ↔
      ∃ r ∈ cfg.Receivers, m ∈ parseMobiles r.Mobile := by
    simp only [Normalize, List.mem_map]
    constructor
    · rintro ⟨r, ⟨r0, hr0, rfl⟩, hm⟩
      exact ⟨r0, hr0, hm⟩
    · rintro ⟨r0, hr0, hm⟩
      exact ⟨_, ⟨r0, hr0, rfl⟩, hm⟩
  have hd : (Normalize cfg).DefaultReceiver.Mobiles = parseMobiles cfg.DefaultReceiver.Mobile :=
    rfl
  rw [hrs, hd]
  simp

/-- Witness of C18: `0907`, `0908` and `0911` are each listed twice in
`sharedConfig`; the keys are visited in reverse order of insertion. -/
theorem AllMobiles_nodup_union_witness :
    (∀ keys : List GoString, (List.reverse keys).Perm keys) ∧
      AllMobiles List.reverse (Normalize sharedConfig) =
        [lit "0999", lit "0911", lit "0908", lit "0907"] ∧
      (AllMobiles List.reverse (Normalize sharedConfig)).Nodup :=
  ⟨fun keys => List.reverse_perm keys, by decide,
    (AllMobiles_nodup_union List.reverse (fun keys => List.reverse_perm keys) sharedConfig).1⟩

/-! ### Project mapping and schedules -/

/-- C19. Project mapping is case-insensitive in the project of the event:
for every normalized configuration and two notifications that differ only in
the project, with projects that are equal after lower-casing,
`determineArgocdReceiver` returns the same receiver. -/
theorem determineArgocdReceiver_project_case (toLower : GoString → GoString) (cfg : Config)
    (notif : ArgocdNotification) (p₁ p₂ : GoString) (hcase : toLower p₁ = toLower p₂) :
    determineArgocdReceiver toLower (setProject notif p₁) (Normalize cfg) =
      determineArgocdReceiver toLower (setProject notif p₂) (Normalize cfg) := by
  have h1 : fromContext (setProject notif p₁) (Normalize cfg) =
      fromContext (setProject notif p₂) (Normalize cfg) := rfl
  have h2 : fromAppMapping (setProject notif p₁) (Normalize cfg) =
      fromAppMapping (setProject notif p₂) (Normalize cfg) := rfl
  have h3 : fromAppPrefixMapping (setProject notif p₁) (Normalize cfg) =
      fromAppPrefixMapping (setProject notif p₂) (Normalize cfg) := rfl
  have h4 : fromProjectMapping toLower (setProject notif p₁) (Normalize cfg) =
      fromProjectMapping toLower (setProject notif p₂) (Normalize cfg) := by
    simp only [fromProjectMapping, setProject, hcase]
  have h5 : fromNamespaceMapping (setProject notif p₁) (Normalize cfg) =
      fromNamespaceMapping (setProject notif p₂) (Normalize cfg) := rfl
  simp only [determineArgocdReceiver, h1, h2, h3, h4, h5]

/-- Witness of C19: the projects `Billing` and `BILLING` both resolve to
`team-proj`, the receiver that `conflictConfig` maps `billing` to. -/
theorem determineArgocdReceiver_project_case_witness :
    strings.asciiToLower (lit "Billing") = strings.asciiToLower (lit "BILLING") ∧
      determineArgocdReceiver strings.asciiToLower
          (setProject projectNotification (lit "Billing")) (Normalize conflictConfig) =
        determineArgocdReceiver strings.asciiToLower
          (setProject projectNotification (lit "BILLING")) (Normalize conflictConfig) ∧
      determineArgocdReceiver strings.asciiToLower
          (setProject projectNotification (lit "BILLING")) (Normalize conflictConfig) =
        normalizedReceiver (lit "team-proj") (lit "0904") [lit "0904"] :=
  ⟨by decide,
    determineArgocdReceiver_project_case strings.asciiToLower conflictConfig projectNotification
      (lit "Billing") (lit "BILLING") (by decide),
    by decide⟩

theorem firstNamed_map (g : Receiver → Receiver) (hg : ∀ r, (g r).Name = r.Name)
    (rs : List Receiver) (name : GoString) :
    firstNamed (rs.map g) name = (firstNamed rs name).map g := by
  induction rs with
  | nil => rfl
  | cons r t ih =>
    unfold firstNamed at ih ⊢
    simp only [List.map_cons, List.find?_cons, hg]
    cases h : (r.Name == name) with
    | true => rfl
    | false => simpa using ih

theorem firstMatching_cons (rs : List Receiver) (e : GoString × GoString)
    (t : List (GoString × GoString)) (isMatch : GoString → Bool) :
    firstMatching rs (e :: t) isMatch =
      match (if isMatch e.1 then firstNamed rs e.2 else none) with
      | some r => some r
      | none => firstMatching rs t isMatch := by
  unfold firstMatching
  rw [List.findSome?_cons]
  cases (if isMatch e.1 = true then firstNamed rs e.2 else none) <;> rfl

theorem firstMatching_map (g : Receiver → Receiver) (hg : ∀ r, (g r).Name = r.Name)
    (rs : List Receiver) (entries : List (GoString × GoString)) (isMatch : GoString → Bool) :
    firstMatching (rs.map g) entries isMatch = (firstMatching rs entries isMatch).map g := by
  induction entries with
  | nil => rfl
  | cons e t ih =>
    rw [firstMatching_cons, firstMatching_cons, ih, firstNamed_map g hg]
    by_cases hm : isMatch e.1 = true
    · simp only [hm, if_true]
      cases firstNamed rs e.2 <;> rfl
    · simp only [hm, if_false, Bool.false_eq_true]

/-- The receiver chosen for a deployment event has the same raw mobile
string whatever the schedules of the configuration are. -/
theorem determineArgocdReceiver_setSchedules (toLower : GoString → GoString)
    (notif : ArgocdNotification) (schedule : Receiver → Option SMSSchedule)
    (defaultSchedule : Option SMSSchedule) (cfg : Config) :
    (determineArgocdReceiver toLower notif (setSchedules schedule defaultSchedule cfg)).Mobile =
      (determineArgocdReceiver toLower notif cfg).Mobile := by
  have hg : ∀ r : Receiver, ({ r with Schedule := schedule r } : Receiver).Name = r.Name :=
    fun _ => rfl
  have hfn := firstNamed_map (fun r => { r with Schedule := schedule r }) hg cfg.Receiver
  have hfm := firstMatching_map (fun r => { r with Schedule := schedule r }) hg cfg.Receiver
  have h1 : fromContext notif (setSchedules schedule defaultSchedule cfg) =
      (fromContext notif cfg).map (fun r => { r with Schedule := schedule r }) := by
    simp only [fromContext, setSchedules]
    cases contextReceiver notif with
    | none => rfl
    | some name => exact hfn name
  have h2 : fromAppMapping notif (setSchedules schedule defaultSchedule cfg) =
      (fromAppMapping notif cfg).map (fun r => { r with Schedule := schedule r }) := by
    simp only [fromAppMapping, setSchedules]
    cases cfg.ArgoCD with
    | none => rfl
    | some argo =>
      dsimp only
      cases argo.AppMapping with
      | none => rfl
      | some m =>
        dsimp only
        cases m.lookup notif.App.Metadata.Name with
        | none => rfl
        | some receiverName => exact hfn receiverName
  have h3 : fromAppPrefixMapping notif (setSchedules schedule defaultSchedule cfg) =
      (fromAppPrefixMapping notif cfg).map (fun r => { r with Schedule := schedule r }) := by
    simp only [fromAppPrefixMapping, setSchedules]
    cases cfg.ArgoCD with
    | none => rfl
    | some argo =>
      dsimp only
      cases argo.AppPrefixMapping with
      | none => rfl
      | some m => exact hfm m _
  have h4 : fromProjectMapping toLower notif (setSchedules schedule defaultSchedule cfg) =
      (fromProjectMapping toLower notif cfg).map (fun r => { r with Schedule := schedule r }) := by
    simp only [fromProjectMapping, setSchedules]
    cases cfg.ArgoCD with
    | none => rfl
    | some argo =>
      dsimp only
      cases argo.ProjectMapping with
      | none => rfl
      | some m =>
        dsimp only
        cases m.lookup (toLower notif.App.Spec.Project) with
        | none => rfl
        | some receiverName => exact hfn receiverName
  have h5 : fromNamespaceMapping notif (setSchedules schedule defaultSchedule cfg) =
      (fromNamespaceMapping notif cfg).map (fun r => { r with Schedule := schedule r }) := by
    simp only [fromNamespaceMapping, setSchedules]
    cases cfg.ArgoCD with
    | none => rfl
    | some argo =>
      dsimp only
      cases argo.NamespaceMapping with
      | none => rfl
      | some m => exact hfm m _
  have h6 : firstNamed (setSchedules schedule defaultSchedule cfg).Receiver
        (defaultReceiverName (setSchedules schedule defaultSchedule cfg)) =
      (firstNamed cfg.Receiver (defaultReceiverName cfg)).map
        (fun r => { r with Schedule := schedule r }) := hfn _
  have h7 : (lastFallback (setSchedules schedule defaultSchedule cfg)).Mobile =
      (lastFallback cfg).Mobile := rfl
  simp only [determineArgocdReceiver, h1, h2, h3, h4, h5, h6]
  cases fromContext notif cfg with
  | some r => rfl
  | none =>
  cases fromAppMapping notif cfg with
  | some r => rfl
  | none =>
  cases fromAppPrefixMapping notif cfg with
  | some r => rfl
  | none =>
  cases fromProjectMapping toLower notif cfg with
  | some r => rfl
  | none =>
  cases fromNamespaceMapping notif cfg with
  | some r => rfl
  | none =>
  cases firstNamed cfg.Receiver (defaultReceiverName cfg) with
  | some r => rfl
  | none => exact h7

theorem processArgocdNotification_setSchedules (toLower : GoString → GoString)
    (sendFails : GoString → GoString → Bool) (notif : ArgocdNotification)
    (schedule : Receiver → Option SMSSchedule) (defaultSchedule : Option SMSSchedule)
    (cfg : Config) :
    processArgocdNotification toLower sendFails notif
        (setSchedules schedule defaultSchedule cfg) =
      processArgocdNotification toLower sendFails notif cfg := by
  simp only [processArgocdNotification, determineArgocdReceiver_setSchedules]

theorem processAlert_setSchedules (alertData : AlertData)
    (schedule : Receiver → Option SMSSchedule) (defaultSchedule : Option SMSSchedule)
    (cfg : Config) :
    processAlert alertData (setSchedules schedule defaultSchedule cfg) =
      processAlert alertData cfg := by
  have hfind : ∀ name : GoString,
      (cfg.Receivers.map (fun r => ({ r with Schedule := schedule r } : Receiver))).find?
          (fun r => r.Name == name) =
        (cfg.Receivers.find? (fun r => r.Name == name)).map
          (fun r => { r with Schedule := schedule r }) :=
    fun name => firstNamed_map (fun r => { r with Schedule := schedule r }) (fun _ => rfl)
      cfg.Receivers name
  unfold processAlert
  cases alertData.Alerts with
  | nil => rfl
  | cons alert rest =>
    simp only [setSchedules, hfind]
    cases cfg.Receivers.find? (fun r => r.Name == alertData.Receiver) <;> rfl

/-- The handlers do not evaluate schedules: for every configuration,
whatever schedules its receivers and its default receiver are given (absent,
disabled, or enabled with any window), `processArgocdNotification` and
`processAlert` make the same calls of the forwarder and give the same
response; a deployment notification with a non-empty message leads to one
call of `SendSMS`, with the raw mobile string of the resolved receiver. -/
theorem handlers_ignore_schedules (toLower : GoString → GoString)
    (sendFails : GoString → GoString → Bool) (notif : ArgocdNotification)
    (alertData : AlertData) (schedule : Receiver → Option SMSSchedule)
    (defaultSchedule : Option SMSSchedule) (cfg : Config) :
    processArgocdNotification toLower sendFails notif
          (setSchedules schedule defaultSchedule cfg) =
        processArgocdNotification toLower sendFails notif cfg ∧
      processAlert alertData (setSchedules schedule defaultSchedule cfg) =
        processAlert alertData cfg ∧
      (∀ m, buildArgocdMessage notif = some m → m ≠ [] →
        ∃ out, processArgocdNotification toLower sendFails notif
              (setSchedules schedule defaultSchedule cfg) = some out ∧
          out.smsCalls = [((determineArgocdReceiver toLower notif cfg).Mobile, m)]) := by
  refine ⟨processArgocdNotification_setSchedules _ _ _ _ _ _,
    processAlert_setSchedules _ _ _ _, ?_⟩
  intro m hm hne
  rw [processArgocdNotification_setSchedules]
  by_cases hf : sendFails (determineArgocdReceiver toLower notif cfg).Mobile m = true
  · exact ⟨{ smsCalls := [((determineArgocdReceiver toLower notif cfg).Mobile, m)]
             response := { Status := 500, Body := lit "error forwarding SMS" ++ [10] } },
      by simp [processArgocdNotification, hm, hne, hf], rfl⟩
  · exact ⟨{ smsCalls := [((determineArgocdReceiver toLower notif cfg).Mobile, m)]
             response := { Status := 200, Body := lit "ArgoCD notification processed ✅" } },
      by simp [processArgocdNotification, hm, hne, hf], rfl⟩

/-- C20 (the code at the failing input). In `officeConfig` the receiver
resolved for `conflictNotification`, `team-ctx`, and the receiver
`alert-devops` declared by the alert both have the schedule `officeHours`,
enabled from 09:00:00 to 17:00:00.  The handlers have no input for the
current instant and read no schedule: the deployment handler calls `SendSMS`
and the alert handler calls `SendToMultipleMobiles` at every instant, so also
at 03:00:00, outside the window. -/
theorem handlers_send_with_enabled_schedule :
    (determineArgocdReceiver strings.asciiToLower conflictNotification officeConfig).Schedule =
        some officeHours ∧
      officeHours.Enabled = true ∧
      processArgocdNotification strings.asciiToLower (fun _ _ => false) conflictNotification
          officeConfig =
        some { smsCalls :=
                 [(lit "0901",
                   lit "[OUT OF SYNC] | App: payments-api | Project: Billing | " ++
                     lit "NS: prod-eu | Sync: OutOfSync")]
               response := { Status := 200, Body := lit "ArgoCD notification processed ✅" } } ∧
      (officeConfig.Receivers.find? (fun r => r.Name == lit "alert-devops")).map
          (fun r => r.Schedule) = some (some officeHours) ∧
      processAlert { Receiver := lit "alert-devops", Alerts := [cpuAlert] } officeConfig =
        some { sendCalls :=
                 [([lit "0907", lit "0908"],
                   lit "[firing] K8S alert tyep but missing fields | " ++
                     lit "AlertGroup: unknown-alertgroup | AlertName: CPUHigh | Sum: cpu spike")]
               response := { Status := 200, Body := lit "Alert processed ✅" } } := by
  decide

end handler
